import Mathlib

/-!
Verification of the Gravity DevTools bridge.

This file gives a shallow embedding, in Lean 4, of the parts of the Gravity
repository that its specification makes claims about:

* the length-prefixed framing codec of the native messaging host
  (`sendToExtension` / `setupStdinReader` in src/native-host/index.js),
* the relay server's overlapping-peer policy (`startWSServer` in
  src/native-host/index.js and the variant in src/unnamed/part_000),
* the bridge client's pending-request table and its close/late-response
  handlers (`attemptConnect` / `handleNativeMessage` in
  src/mcp-server/build/index.js),
* the configured request deadlines (`CDP_TIMEOUT` and the extension-side
  deadlines of `sendCDPCommand`),
* the rule-based layout diagnostic engine (`checkOffscreen`,
  `checkVisibility`, `checkModalIssues`, `checkOverflow` and the
  `diagnose_layout` result construction in src/mcp-server/build/index.js).

Bytes are modelled as natural numbers below 256 where it matters; buffers are
`List Nat`.  JavaScript `JSON.stringify` / `JSON.parse` are modelled by an
executable serializer and parser over an inductive JSON value type.
-/

set_option autoImplicit false
set_option maxRecDepth 100000

namespace Gravity

/-! ## Bytes and the frame encoder (`sendToExtension`) -/

/-- The 4-byte little-endian length header written by
`headerBuffer.writeUInt32LE(bodyBuffer.length, 0)` in `sendToExtension`
(src/native-host/index.js, lines 61-93). -/
def lenLE4 (n : Nat) : List Nat :=
  [n % 256, n / 256 % 256, n / 65536 % 256, n / 16777216 % 256]

/-- `sendToExtension`: the wire frame is the 4-byte little-endian length
header followed by the UTF-8 JSON payload. -/
def encodeFrame (payload : List Nat) : List Nat :=
  lenLE4 payload.length ++ payload

/-- `buffer.readUInt32LE(0)`. -/
def readU32LE (b0 b1 b2 b3 : Nat) : Nat :=
  b0 + 256 * b1 + 65536 * b2 + 16777216 * b3

/-- Read the length header from the first four buffered bytes. -/
def readLen (buffer : List Nat) : Nat :=
  readU32LE (buffer.getD 0 0) (buffer.getD 1 0) (buffer.getD 2 0) (buffer.getD 3 0)

/-! ## The stdin decoder (`setupStdinReader`, src/native-host/index.js 99-240)

The reader keeps a byte buffer and a `pendingLength`.  Before reading a
length header it scans the first `min(buffer.length, 10)` bytes for `0x7B`
(`{`); if found, it drops everything before the `{` and switches to a
brace-counting scan that slices out one JSON text (handing it to
`JSON.parse`) and then continues the scan loop on the remaining buffer at
the next loop index. -/

/-- The `for (let i = 0; i < Math.min(buffer.length, 10); i++)` scan looking
for the first `{` (0x7B) byte. -/
def findJsonStartAux : List Nat → Nat → Option Nat
  | [], _ => none
  | b :: rest, i =>
    if 10 ≤ i then none
    else if b = 123 then some i
    else findJsonStartAux rest (i + 1)

def findJsonStart (buffer : List Nat) : Option Nat :=
  findJsonStartAux buffer 0

/-- State of the brace-counting scan: `braceCount`, `inString`, `escaped`. -/
structure ScanSt where
  bc : Int
  inString : Bool
  escaped : Bool
deriving DecidableEq

/-- Brace count after processing byte `b` in the `!inString` branch. -/
def updBC (s : ScanSt) (b : Nat) : Int :=
  if b = 123 then s.bc + 1 else if b = 125 then s.bc - 1 else s.bc

/-- One byte of the brace-counting scan (the body of the `for` loop at
src/native-host/index.js lines 140-173, without the emission). -/
def scanStep (s : ScanSt) (b : Nat) : ScanSt :=
  if s.escaped then { s with escaped := false }
  else if b = 92 then { s with escaped := true }
  else if b = 34 then { s with inString := !s.inString }
  else if s.inString then s
  else { s with bc := updBC s b }

/-- The emission test `braceCount === 0 && i > 0`, reached only for a byte
that ran past the escape, backslash and quote branches with `inString`
false.  `iPos` is the `i > 0` part. -/
def emitsAt (s : ScanSt) (b : Nat) (iPos : Bool) : Bool :=
  !s.escaped && !(b == 92) && !(b == 34) && !s.inString && (updBC s b == 0) && iPos

/-- The brace-counting `for` loop.  `scanned` holds the bytes at indices
`< i` of the current (mutable) buffer, `rest` the bytes at indices `≥ i`.
On emission the source does `buffer = buffer.slice(i + 1)` and `continue`,
so the loop resumes at index `i + 1` of the new, shorter buffer — skipping
its first `i + 1` bytes.  Returns the emitted JSON slices (in order) and
the final buffer.  `fuel` only needs to dominate the number of loop steps;
callers pass `rest.length`. -/
def jscan (fuel : Nat) (scanned rest : List Nat) (s : ScanSt) :
    List (List Nat) × List Nat :=
  match fuel, rest with
  | 0, _ => ([], scanned ++ rest)
  | _ + 1, [] => ([], scanned)
  | fuel + 1, b :: rest' =>
    if emitsAt s b (!scanned.isEmpty) then
      let skip := scanned.length + 1
      let res := jscan fuel (rest'.take skip) (rest'.drop skip) ⟨0, false, false⟩
      ((scanned ++ [b]) :: res.1, res.2)
    else
      jscan fuel (scanned ++ [b]) rest' (scanStep s b)

/-- One run of the `while (true)` loop of `setupStdinReader` over the
current buffer.  Returns the emitted JSON slices, the remaining buffer and
the remaining `pendingLength`.  Each iteration consumes at least one
buffered byte, so `fuel = buffer.length + 1` always suffices. -/
def procLoop (fuel : Nat) (buffer : List Nat) (pending : Nat) :
    List (List Nat) × List Nat × Nat :=
  match fuel with
  | 0 => ([], buffer, pending)
  | fuel + 1 =>
    if pending = 0 then
      if buffer.length < 4 then ([], buffer, 0)
      else
        match findJsonStart buffer with
        | some j =>
          -- JSON detected: drop to the `{`, run the brace scan, then `break`.
          let res := jscan (buffer.drop j).length [] (buffer.drop j) ⟨0, false, false⟩
          (res.1, res.2, 0)
        | none =>
          let len := readLen buffer
          if 100 * 1024 * 1024 < len then
            -- sanity ceiling: drop one byte and retry from the top
            procLoop fuel (buffer.drop 1) 0
          else
            let buf2 := buffer.drop 4
            if buf2.length < len then
              if 100 * 1024 * 1024 < len then ([], [], 0) else ([], buf2, len)
            else
              let res := procLoop fuel (buf2.drop len) 0
              (buf2.take len :: res.1, res.2.1, res.2.2)
    else
      if buffer.length < pending then
        if 100 * 1024 * 1024 < pending then ([], [], 0) else ([], buffer, pending)
      else
        let res := procLoop fuel (buffer.drop pending) 0
        (buffer.take pending :: res.1, res.2.1, res.2.2)

/-- Decoder state between chunk arrivals. -/
structure DecSt where
  buffer : List Nat
  pending : Nat
deriving DecidableEq

def initDecSt : DecSt := ⟨[], 0⟩

/-- Append one arriving chunk and run the parse loop (one iteration of the
outer `while ((chunk = process.stdin.read()) !== null)` loop). -/
def processChunk (st : DecSt) (chunk : List Nat) : List (List Nat) × DecSt :=
  let buf := st.buffer ++ chunk
  let res := procLoop (buf.length + 1) buf st.pending
  (res.1, ⟨res.2.1, res.2.2⟩)

/-- Feed a sequence of chunks, collecting all emitted JSON slices. -/
def feedChunks (st : DecSt) : List (List Nat) → List (List Nat) × DecSt
  | [] => ([], st)
  | c :: cs =>
    let r1 := processChunk st c
    let r2 := feedChunks r1.2 cs
    (r1.1 ++ r2.1, r2.2)

/-- All JSON slices the decoder hands to `JSON.parse`, starting from the
empty buffer. -/
def decodeSlices (chunks : List (List Nat)) : List (List Nat) :=
  (feedChunks initDecSt chunks).1

/-- A byte stream delivered one byte at a time. -/
def bytewise (bytes : List Nat) : List (List Nat) :=
  bytes.map (fun b => [b])

/-! ## JSON values, `JSON.stringify` and `JSON.parse`

Envelopes are JSON objects (spec section 3).  We model the JSON values that
appear in envelopes: null, booleans, unsigned integers (the protocol's ids
and sizes), strings (as raw byte lists; `JSON.stringify` escapes `"` and
`\`), arrays and objects. -/

mutual
inductive Json where
  | null : Json
  | bool (b : Bool) : Json
  | num (n : Nat) : Json
  | str (s : List Nat) : Json
  | arr (xs : JsonArr) : Json
  | obj (fs : JsonObj) : Json
inductive JsonArr where
  | nil : JsonArr
  | cons (hd : Json) (tl : JsonArr) : JsonArr
inductive JsonObj where
  | nil : JsonObj
  | cons (key : List Nat) (val : Json) (tl : JsonObj) : JsonObj
end

/-- `JSON.stringify` escaping of a string byte: `"` (34) and `\` (92) get a
backslash. -/
def escapeByte (b : Nat) : List Nat :=
  if b = 34 ∨ b = 92 then [92, b] else [b]

def escapeBytes (s : List Nat) : List Nat :=
  s.flatMap escapeByte

/-- A serialized string literal: `"` content `"`. -/
def strLit (s : List Nat) : List Nat :=
  34 :: (escapeBytes s ++ [34])

/-- Decimal digits of `n`, least significant first, as ASCII bytes; the
fuel argument (any bound ≥ the digit count, we pass `n`) keeps the
recursion structural. -/
def natBytesAux : Nat → Nat → List Nat
  | 0, _ => []
  | _ + 1, 0 => []
  | fuel + 1, n => (n % 10 + 48) :: natBytesAux fuel (n / 10)

/-- Decimal digits of `n`, most significant first, as ASCII bytes. -/
def natBytes (n : Nat) : List Nat :=
  if n = 0 then [48] else (natBytesAux n n).reverse

mutual
/-- `JSON.stringify` on the modelled JSON values. -/
def stringify : Json → List Nat
  | .null => [110, 117, 108, 108]
  | .bool true => [116, 114, 117, 101]
  | .bool false => [102, 97, 108, 115, 101]
  | .num n => natBytes n
  | .str s => strLit s
  | .arr .nil => [91, 93]
  | .arr (.cons x xs) => 91 :: (stringify x ++ (stringifyArrRest xs ++ [93]))
  | .obj .nil => [123, 125]
  | .obj (.cons k v fs) =>
    123 :: (strLit k ++ ((58 :: stringify v) ++ (stringifyObjRest fs ++ [125])))
def stringifyArrRest : JsonArr → List Nat
  | .nil => []
  | .cons x xs => 44 :: (stringify x ++ stringifyArrRest xs)
def stringifyObjRest : JsonObj → List Nat
  | .nil => []
  | .cons k v fs => 44 :: (strLit k ++ ((58 :: stringify v) ++ stringifyObjRest fs))
end

def isDigitB (b : Nat) : Bool :=
  48 ≤ b && b ≤ 57

/-- Parse a string literal body up to the closing quote, undoing the
escaping. -/
def parseStrBody : List Nat → Option (List Nat × List Nat)
  | [] => none
  | b :: r =>
    if b = 34 then some ([], r)
    else if b = 92 then
      match r with
      | [] => none
      | c :: r' =>
        match parseStrBody r' with
        | some (s, r2) => some (c :: s, r2)
        | none => none
    else
      match parseStrBody r with
      | some (s, r2) => some (b :: s, r2)
      | none => none

/-- Consume a maximal run of decimal digits, accumulating their value. -/
def parseDigitsAux (acc : Nat) : List Nat → Nat × List Nat
  | [] => (acc, [])
  | b :: r => if isDigitB b then parseDigitsAux (10 * acc + (b - 48)) r else (acc, b :: r)

mutual
/-- `JSON.parse`, as a fueled recursive-descent parser returning the parsed
value and the unconsumed remainder. -/
def parseVal : Nat → List Nat → Option (Json × List Nat)
  | 0, _ => none
  | _ + 1, [] => none
  | fuel + 1, b :: r =>
    if isDigitB b then
      let res := parseDigitsAux 0 (b :: r)
      some (.num res.1, res.2)
    else if b = 110 then
      match r with
      | 117 :: 108 :: 108 :: r' => some (.null, r')
      | _ => none
    else if b = 116 then
      match r with
      | 114 :: 117 :: 101 :: r' => some (.bool true, r')
      | _ => none
    else if b = 102 then
      match r with
      | 97 :: 108 :: 115 :: 101 :: r' => some (.bool false, r')
      | _ => none
    else if b = 34 then
      match parseStrBody r with
      | some (s, r') => some (.str s, r')
      | none => none
    else if b = 91 then
      match r with
      | [] => none
      | c :: r' =>
        if c = 93 then some (.arr .nil, r')
        else
          match parseArrItems fuel (c :: r') with
          | some (xs, r2) => some (.arr xs, r2)
          | none => none
    else if b = 123 then
      match r with
      | [] => none
      | c :: r' =>
        if c = 125 then some (.obj .nil, r')
        else
          match parseObjItems fuel (c :: r') with
          | some (fs, r2) => some (.obj fs, r2)
          | none => none
    else none
/-- Comma-separated array items up to the closing `]`. -/
def parseArrItems : Nat → List Nat → Option (JsonArr × List Nat)
  | 0, _ => none
  | fuel + 1, bytes =>
    match parseVal fuel bytes with
    | some (x, r) =>
      match r with
      | 44 :: r' =>
        (match parseArrItems fuel r' with
         | some (xs, r2) => some (.cons x xs, r2)
         | none => none)
      | 93 :: r' => some (.cons x .nil, r')
      | _ => none
    | none => none
/-- Comma-separated `"key": value` pairs up to the closing `}`. -/
def parseObjItems : Nat → List Nat → Option (JsonObj × List Nat)
  | 0, _ => none
  | fuel + 1, bytes =>
    match bytes with
    | 34 :: r =>
      (match parseStrBody r with
       | some (k, r1) =>
         (match r1 with
          | 58 :: r2 =>
            (match parseVal fuel r2 with
             | some (v, r3) =>
               (match r3 with
                | 44 :: r4 =>
                  (match parseObjItems fuel r4 with
                   | some (fs, r5) => some (.cons k v fs, r5)
                   | none => none)
                | 125 :: r4 => some (.cons k v .nil, r4)
                | _ => none)
             | none => none)
          | _ => none)
       | none => none)
    | _ => none
end

mutual
/-- Fuel bound for parsing the serialization of a value. -/
def szJ : Json → Nat
  | .null => 1
  | .bool _ => 1
  | .num _ => 1
  | .str _ => 1
  | .arr xs => szA xs + 1
  | .obj fs => szO fs + 1
def szA : JsonArr → Nat
  | .nil => 0
  | .cons x xs => szJ x + szA xs + 1
def szO : JsonObj → Nat
  | .nil => 0
  | .cons _ v fs => szJ v + szO fs + 1
end

/-- `JSON.parse` of a complete text: fails unless the whole input is one
JSON value. -/
def parseJson (p : List Nat) : Option Json :=
  match parseVal (p.length + 1) p with
  | some (j, []) => some j
  | _ => none

/-- The messages the decoder delivers to `handleExtensionMessage`: the
slices whose `JSON.parse` succeeds (parse errors are logged and dropped). -/
def decodeMsgs (chunks : List (List Nat)) : List Json :=
  (decodeSlices chunks).filterMap parseJson

/-- `true` when the list does not start with an ASCII digit (so a maximal
digit run ends right before it). -/
def nonDigitHead : List Nat → Bool
  | [] => true
  | b :: _ => !isDigitB b

/-! ## Parser round-trip: `parseJson (stringify j) = some j` -/

theorem parseDigitsAux_stop (acc : Nat) (rest : List Nat)
    (h : nonDigitHead rest = true) : parseDigitsAux acc rest = (acc, rest) := by
  cases rest with
  | nil => rfl
  | cons b r =>
    simp only [nonDigitHead, Bool.not_eq_true'] at h
    simp [parseDigitsAux, h]

theorem natBytesAux_digits (fuel : Nat) : ∀ (n : Nat), ∀ b ∈ natBytesAux fuel n,
    48 ≤ b ∧ b ≤ 57 := by
  induction fuel with
  | zero => intro n b hb; simp [natBytesAux] at hb
  | succ f ih =>
    intro n b hb
    cases n with
    | zero => simp [natBytesAux] at hb
    | succ m =>
      simp only [natBytesAux, List.mem_cons] at hb
      rcases hb with h | h
      · have hlt : (m + 1) % 10 < 10 := by omega
        omega
      · exact ih _ b h

theorem parseDigitsAux_natBytesAux (fuel : Nat) : ∀ (n acc : Nat) (rest : List Nat),
    n ≤ fuel →
    parseDigitsAux acc ((natBytesAux fuel n).reverse ++ rest)
      = parseDigitsAux (acc * 10 ^ (natBytesAux fuel n).length + n) rest := by
  induction fuel with
  | zero =>
    intro n acc rest hn
    interval_cases n
    simp [natBytesAux]
  | succ f ih =>
    intro n acc rest hn
    cases n with
    | zero => simp [natBytesAux]
    | succ m =>
      have hdiv : (m + 1) / 10 ≤ f := by
        have h1 : (m + 1) / 10 < m + 1 := Nat.div_lt_self (by omega) (by omega)
        omega
      simp only [natBytesAux, List.reverse_cons, List.append_assoc]
      rw [ih _ acc _ hdiv]
      have hd : isDigitB ((m + 1) % 10 + 48) = true := by
        have hlt : (m + 1) % 10 < 10 := by omega
        simp only [isDigitB, Bool.and_eq_true, decide_eq_true_eq]
        omega
      simp only [List.cons_append, List.nil_append, parseDigitsAux, hd, if_pos]
      congr 1
      have hpow : 10 ^ (((m + 1) % 10 + 48) :: natBytesAux f ((m + 1) / 10)).length
          = 10 ^ (natBytesAux f ((m + 1) / 10)).length * 10 := by
        simp [pow_succ]
      have h48 : (m + 1) % 10 + 48 - 48 = (m + 1) % 10 := by omega
      rw [hpow, h48, ← Nat.mul_assoc]
      generalize acc * 10 ^ (natBytesAux f ((m + 1) / 10)).length = A
      omega

theorem parseDigitsAux_natBytes (n : Nat) (rest : List Nat)
    (h : nonDigitHead rest = true) :
    parseDigitsAux 0 (natBytes n ++ rest) = (n, rest) := by
  by_cases hn : n = 0
  · subst hn
    simp only [natBytes, if_pos rfl, List.cons_append, List.nil_append, parseDigitsAux]
    norm_num [isDigitB]
    exact parseDigitsAux_stop 0 rest h
  · simp only [natBytes, if_neg hn]
    rw [parseDigitsAux_natBytesAux n n 0 rest (Nat.le_refl n)]
    simp only [Nat.zero_mul, Nat.zero_add]
    exact parseDigitsAux_stop n rest h

theorem natBytes_digits (n : Nat) : ∀ b ∈ natBytes n, 48 ≤ b ∧ b ≤ 57 := by
  intro b hb
  by_cases hn : n = 0
  · subst hn; simp [natBytes] at hb; omega
  · simp only [natBytes, if_neg hn, List.mem_reverse] at hb
    exact natBytesAux_digits n n b hb

theorem natBytes_ne_nil (n : Nat) : natBytes n ≠ [] := by
  by_cases hn : n = 0
  · subst hn; simp [natBytes]
  · simp only [natBytes, if_neg hn]
    cases n with
    | zero => omega
    | succ m => simp [natBytesAux]

theorem parseStrBody_quote (r : List Nat) : parseStrBody (34 :: r) = some ([], r) := by
  rw [parseStrBody.eq_def]
  simp

theorem parseStrBody_backslash (c : Nat) (r : List Nat) :
    parseStrBody (92 :: (c :: r)) =
      match parseStrBody r with
      | some (s, r2) => some (c :: s, r2)
      | none => none := by
  rw [parseStrBody.eq_def]
  norm_num

theorem parseStrBody_plain (b : Nat) (r : List Nat) (h34 : b ≠ 34) (h92 : b ≠ 92) :
    parseStrBody (b :: r) =
      match parseStrBody r with
      | some (s, r2) => some (b :: s, r2)
      | none => none := by
  rw [parseStrBody.eq_def]
  simp only [if_neg h34, if_neg h92]

theorem parseStrBody_escapeBytes (s : List Nat) : ∀ (rest : List Nat),
    parseStrBody (escapeBytes s ++ (34 :: rest)) = some (s, rest) := by
  induction s with
  | nil =>
    intro rest
    simp only [escapeBytes, List.flatMap_nil, List.nil_append]
    exact parseStrBody_quote rest
  | cons b s ih =>
    intro rest
    have hesc : escapeBytes (b :: s) = escapeByte b ++ escapeBytes s := by
      simp [escapeBytes]
    rw [hesc, List.append_assoc]
    by_cases hb : b = 34 ∨ b = 92
    · rw [show escapeByte b = [92, b] from by unfold escapeByte; rw [if_pos hb]]
      simp only [List.cons_append, List.nil_append]
      rw [parseStrBody_backslash b (escapeBytes s ++ (34 :: rest))]
      rw [ih rest]
    · push_neg at hb
      rw [show escapeByte b = [b] from by unfold escapeByte; rw [if_neg]; push_neg; exact hb]
      simp only [List.cons_append, List.nil_append]
      rw [parseStrBody_plain b _ hb.1 hb.2]
      rw [ih rest]

theorem szJ_pos (j : Json) : 1 ≤ szJ j := by
  cases j <;> simp [szJ]

theorem stringify_head_ne93 (j : Json) :
    ∃ h t, stringify j = h :: t ∧ h ≠ 93 := by
  cases j with
  | null => exact ⟨110, _, rfl, by omega⟩
  | bool b =>
    cases b with
    | true => exact ⟨116, _, rfl, by omega⟩
    | false => exact ⟨102, _, rfl, by omega⟩
  | num n =>
    obtain ⟨h, t, hs⟩ : ∃ h t, natBytes n = h :: t := by
      cases hnb : natBytes n with
      | nil => exact absurd hnb (natBytes_ne_nil n)
      | cons a b => exact ⟨a, b, rfl⟩
    have hd := natBytes_digits n h (by rw [hs]; exact List.mem_cons_self h t)
    exact ⟨h, t, by simp [stringify, hs], by omega⟩
  | str s => exact ⟨34, _, rfl, by omega⟩
  | arr xs =>
    cases xs with
    | nil => exact ⟨91, _, rfl, by omega⟩
    | cons x xs => exact ⟨91, _, rfl, by omega⟩
  | obj fs =>
    cases fs with
    | nil => exact ⟨123, _, rfl, by omega⟩
    | cons k v fs => exact ⟨123, _, rfl, by omega⟩

mutual
theorem szJ_le_len (j : Json) : szJ j ≤ (stringify j).length := by
  cases j with
  | null => simp [szJ, stringify]
  | bool b => cases b <;> simp [szJ, stringify]
  | num n =>
    have h := natBytes_ne_nil n
    have : 1 ≤ (natBytes n).length := List.length_pos.mpr h
    simpa [szJ, stringify] using this
  | str s => simp [szJ, stringify, strLit]
  | arr xs =>
    cases xs with
    | nil => simp [szJ, szA, stringify]
    | cons x xs =>
      have h1 := szJ_le_len x
      have h2 := szA_le_len xs
      simp only [szJ, szA, stringify, List.length_cons, List.length_append]
      omega
  | obj fs =>
    cases fs with
    | nil => simp [szJ, szO, stringify]
    | cons k v fs =>
      have h1 := szJ_le_len v
      have h2 := szO_le_len fs
      simp only [szJ, szO, stringify, List.length_cons, List.length_append]
      omega
theorem szA_le_len (xs : JsonArr) : szA xs ≤ (stringifyArrRest xs).length := by
  cases xs with
  | nil => simp [szA, stringifyArrRest]
  | cons x xs =>
    have h1 := szJ_le_len x
    have h2 := szA_le_len xs
    simp only [szA, stringifyArrRest, List.length_cons, List.length_append]
    omega
theorem szO_le_len (fs : JsonObj) : szO fs ≤ (stringifyObjRest fs).length := by
  cases fs with
  | nil => simp [szO, stringifyObjRest]
  | cons k v fs =>
    have h1 := szJ_le_len v
    have h2 := szO_le_len fs
    simp only [szO, stringifyObjRest, List.length_cons, List.length_append]
    omega
end

theorem nonDigitHead_arrRest (xs : JsonArr) (rest : List Nat) :
    nonDigitHead (stringifyArrRest xs ++ (93 :: rest)) = true := by
  cases xs <;> simp [stringifyArrRest, nonDigitHead, isDigitB]

theorem nonDigitHead_objRest (fs : JsonObj) (rest : List Nat) :
    nonDigitHead (stringifyObjRest fs ++ (125 :: rest)) = true := by
  cases fs <;> simp [stringifyObjRest, nonDigitHead, isDigitB]

/-- One-step unfolding of `parseVal` on a nonempty input. -/
theorem parseVal_cons (f : Nat) (b : Nat) (r : List Nat) :
    parseVal (f + 1) (b :: r) =
      (if isDigitB b then
        some (.num (parseDigitsAux 0 (b :: r)).1, (parseDigitsAux 0 (b :: r)).2)
      else if b = 110 then
        match r with
        | 117 :: 108 :: 108 :: r' => some (.null, r')
        | _ => none
      else if b = 116 then
        match r with
        | 114 :: 117 :: 101 :: r' => some (.bool true, r')
        | _ => none
      else if b = 102 then
        match r with
        | 97 :: 108 :: 115 :: 101 :: r' => some (.bool false, r')
        | _ => none
      else if b = 34 then
        match parseStrBody r with
        | some (s, r') => some (.str s, r')
        | none => none
      else if b = 91 then
        match r with
        | [] => none
        | c :: r' =>
          if c = 93 then some (.arr .nil, r')
          else
            match parseArrItems f (c :: r') with
            | some (xs, r2) => some (.arr xs, r2)
            | none => none
      else if b = 123 then
        match r with
        | [] => none
        | c :: r' =>
          if c = 125 then some (.obj .nil, r')
          else
            match parseObjItems f (c :: r') with
            | some (fs, r2) => some (.obj fs, r2)
            | none => none
      else none) :=
  rfl

theorem parseVal_digit_step (f : Nat) (b : Nat) (r : List Nat) (hd : isDigitB b = true) :
    parseVal (f + 1) (b :: r)
      = some (.num (parseDigitsAux 0 (b :: r)).1, (parseDigitsAux 0 (b :: r)).2) := by
  rw [parseVal_cons, if_pos]
  rw [hd]

theorem parseVal_str_step (f : Nat) (r : List Nat) :
    parseVal (f + 1) (34 :: r) =
      (match parseStrBody r with
       | some (s, r2) => some (.str s, r2)
       | none => none) :=
  rfl

theorem parseVal_arr_step (f : Nat) (c : Nat) (r' : List Nat) :
    parseVal (f + 1) (91 :: (c :: r')) =
      (if c = 93 then some (.arr .nil, r')
       else
         match parseArrItems f (c :: r') with
         | some (xs, r2) => some (.arr xs, r2)
         | none => none) :=
  rfl

theorem parseVal_obj_step (f : Nat) (c : Nat) (r' : List Nat) :
    parseVal (f + 1) (123 :: (c :: r')) =
      (if c = 125 then some (.obj .nil, r')
       else
         match parseObjItems f (c :: r') with
         | some (fs, r2) => some (.obj fs, r2)
         | none => none) :=
  rfl

theorem parseArrItems_step (f : Nat) (bytes : List Nat) :
    parseArrItems (f + 1) bytes =
      (match parseVal f bytes with
       | some (x, r) =>
         (match r with
          | 44 :: r' =>
            (match parseArrItems f r' with
             | some (xs, r2) => some (.cons x xs, r2)
             | none => none)
          | 93 :: r' => some (.cons x .nil, r')
          | _ => none)
       | none => none) :=
  rfl

theorem parseObjItems_step (f : Nat) (r : List Nat) :
    parseObjItems (f + 1) (34 :: r) =
      (match parseStrBody r with
       | some (k, r1) =>
         (match r1 with
          | 58 :: r2 =>
            (match parseVal f r2 with
             | some (v, r3) =>
               (match r3 with
                | 44 :: r4 =>
                  (match parseObjItems f r4 with
                   | some (fs, r5) => some (.cons k v fs, r5)
                   | none => none)
                | 125 :: r4 => some (.cons k v .nil, r4)
                | _ => none)
             | none => none)
          | _ => none)
       | none => none) :=
  rfl

mutual
/-- `JSON.parse` undoes `JSON.stringify`: the serialized value followed by
any remainder not starting with a digit parses back to the value. -/
theorem parseVal_stringify (j : Json) (fuel : Nat) (rest : List Nat)
    (hf : szJ j ≤ fuel) (hrest : nonDigitHead rest = true) :
    parseVal fuel (stringify j ++ rest) = some (j, rest) := by
  obtain ⟨f, rfl⟩ : ∃ f, fuel = f + 1 := ⟨fuel - 1, by have := szJ_pos j; omega⟩
  cases j with
  | null => rfl
  | bool b => cases b <;> rfl
  | num n =>
    obtain ⟨h, t, hnb⟩ : ∃ h t, natBytes n = h :: t := by
      cases hx : natBytes n with
      | nil => exact absurd hx (natBytes_ne_nil n)
      | cons a l => exact ⟨a, l, rfl⟩
    have hmem : h ∈ natBytes n := by rw [hnb]; exact List.mem_cons_self h t
    have hdig := natBytes_digits n h hmem
    have hd : isDigitB h = true := by
      simp only [isDigitB, Bool.and_eq_true, decide_eq_true_eq]
      omega
    have hsplit : stringify (Json.num n) ++ rest = h :: (t ++ rest) := by
      show natBytes n ++ rest = h :: (t ++ rest)
      rw [hnb]; rfl
    rw [hsplit, parseVal_digit_step f h (t ++ rest) hd]
    have hback : h :: (t ++ rest) = natBytes n ++ rest := by rw [hnb]; rfl
    rw [hback, parseDigitsAux_natBytes n rest hrest]
  | str s =>
    have hsplit : stringify (Json.str s) ++ rest
        = 34 :: (escapeBytes s ++ (34 :: rest)) := by
      show strLit s ++ rest = _
      simp [strLit]
    rw [hsplit, parseVal_str_step, parseStrBody_escapeBytes s rest]
  | arr xs =>
    cases xs with
    | nil => rfl
    | cons x xs =>
      obtain ⟨h, t, hshape, hne⟩ := stringify_head_ne93 x
      have hsplit : stringify (Json.arr (JsonArr.cons x xs)) ++ rest
          = 91 :: (h :: (t ++ (stringifyArrRest xs ++ (93 :: rest)))) := by
        show (91 :: (stringify x ++ (stringifyArrRest xs ++ [93]))) ++ rest = _
        rw [hshape]
        simp
      rw [hsplit, parseVal_arr_step, if_neg hne]
      have hback : h :: (t ++ (stringifyArrRest xs ++ (93 :: rest)))
          = stringify x ++ (stringifyArrRest xs ++ (93 :: rest)) := by
        rw [hshape]; rfl
      rw [hback]
      rw [parseArrItems_stringify x xs f rest
        (by simp only [szJ, szA] at hf; omega)]
  | obj fs =>
    cases fs with
    | nil => rfl
    | cons k v fs =>
      have hsplit : stringify (Json.obj (JsonObj.cons k v fs)) ++ rest
          = 123 :: (34 :: (escapeBytes k ++
              (34 :: (58 :: (stringify v ++ (stringifyObjRest fs ++ (125 :: rest))))))) := by
        show (123 :: (strLit k ++ ((58 :: stringify v) ++ (stringifyObjRest fs ++ [125])))) ++ rest = _
        simp [strLit]
      rw [hsplit, parseVal_obj_step, if_neg (by omega : (34 : Nat) ≠ 125)]
      rw [parseObjItems_stringify k v fs f rest
        (by simp only [szJ, szO] at hf; omega)]
termination_by fuel
theorem parseArrItems_stringify (x : Json) (xs : JsonArr) (fuel : Nat) (rest : List Nat)
    (hf : szJ x + szA xs + 1 ≤ fuel) :
    parseArrItems fuel (stringify x ++ (stringifyArrRest xs ++ (93 :: rest)))
      = some (JsonArr.cons x xs, rest) := by
  obtain ⟨f, rfl⟩ : ∃ f, fuel = f + 1 := ⟨fuel - 1, by omega⟩
  rw [parseArrItems_step]
  rw [parseVal_stringify x f (stringifyArrRest xs ++ (93 :: rest)) (by omega)
    (nonDigitHead_arrRest xs rest)]
  cases xs with
  | nil => dsimp only [stringifyArrRest, List.nil_append]
  | cons x2 xs2 =>
    have hr : stringifyArrRest (JsonArr.cons x2 xs2) ++ (93 :: rest)
        = 44 :: (stringify x2 ++ (stringifyArrRest xs2 ++ (93 :: rest))) := by
      show (44 :: (stringify x2 ++ stringifyArrRest xs2)) ++ (93 :: rest) = _
      simp
    rw [hr]
    dsimp only
    rw [parseArrItems_stringify x2 xs2 f rest
      (by have hp := szJ_pos x; simp only [szA] at hf; omega)]
termination_by fuel
theorem parseObjItems_stringify (k : List Nat) (v : Json) (fs : JsonObj) (fuel : Nat)
    (rest : List Nat) (hf : szJ v + szO fs + 1 ≤ fuel) :
    parseObjItems fuel
        (34 :: (escapeBytes k ++ (34 :: (58 :: (stringify v ++ (stringifyObjRest fs ++ (125 :: rest)))))))
      = some (JsonObj.cons k v fs, rest) := by
  obtain ⟨f, rfl⟩ : ∃ f, fuel = f + 1 := ⟨fuel - 1, by have := szJ_pos v; omega⟩
  rw [parseObjItems_step]
  rw [parseStrBody_escapeBytes k (58 :: (stringify v ++ (stringifyObjRest fs ++ (125 :: rest))))]
  dsimp only
  rw [parseVal_stringify v f (stringifyObjRest fs ++ (125 :: rest)) (by omega)
    (nonDigitHead_objRest fs rest)]
  cases fs with
  | nil => dsimp only [stringifyObjRest, List.nil_append]
  | cons k2 v2 fs2 =>
    have hr : stringifyObjRest (JsonObj.cons k2 v2 fs2) ++ (125 :: rest)
        = 44 :: (34 :: (escapeBytes k2 ++
            (34 :: (58 :: (stringify v2 ++ (stringifyObjRest fs2 ++ (125 :: rest))))))) := by
      show (44 :: (strLit k2 ++ ((58 :: stringify v2) ++ stringifyObjRest fs2))) ++ (125 :: rest) = _
      simp [strLit]
    rw [hr]
    dsimp only
    rw [parseObjItems_stringify k2 v2 fs2 f rest
      (by have hp := szJ_pos v; simp only [szO] at hf; omega)]
termination_by fuel
end

/-- Round trip of the modelled `JSON.parse` and `JSON.stringify`. -/
theorem parseJson_stringify (j : Json) : parseJson (stringify j) = some j := by
  unfold parseJson
  have h1 : parseVal ((stringify j).length + 1) (stringify j ++ []) = some (j, []) :=
    parseVal_stringify j _ [] (by have := szJ_le_len j; omega) rfl
  rw [List.append_nil] at h1
  rw [h1]

/-! ## The brace scan over serialized JSON objects

The decoder's brace-counting loop, run on the serialization of a JSON
object, emits exactly that serialization: the brace count stays ≥ 1
strictly inside the object and returns to 0 exactly at its final `}`. -/

/-- Folding `scanStep` over a byte segment. -/
def scanList (s : ScanSt) : List Nat → ScanSt
  | [] => s
  | b :: r => scanList (scanStep s b) r

/-- No byte of the segment triggers the emission test (at indices > 0). -/
def noEmitB (s : ScanSt) : List Nat → Bool
  | [] => true
  | b :: r => !(emitsAt s b true) && noEmitB (scanStep s b) r

theorem scanList_append (a : List Nat) : ∀ (s : ScanSt) (b : List Nat),
    scanList s (a ++ b) = scanList (scanList s a) b := by
  induction a with
  | nil => intro s b; rfl
  | cons x a ih => intro s b; simp only [List.cons_append, scanList]; exact ih _ b

theorem noEmitB_append (a : List Nat) : ∀ (s : ScanSt) (b : List Nat),
    noEmitB s (a ++ b) = (noEmitB s a && noEmitB (scanList s a) b) := by
  induction a with
  | nil => intro s b; simp [noEmitB, scanList]
  | cons x a ih =>
    intro s b
    simp only [List.cons_append, noEmitB, scanList, List.append_eq, ih, Bool.and_assoc]

/-- One-step unfolding of `jscan` on a nonempty rest. -/
theorem jscan_cons (g : Nat) (scanned : List Nat) (b : Nat) (rest' : List Nat) (s : ScanSt) :
    jscan (g + 1) scanned (b :: rest') s =
      (if emitsAt s b (!scanned.isEmpty) then
        ((scanned ++ [b]) ::
          (jscan g (rest'.take (scanned.length + 1)) (rest'.drop (scanned.length + 1))
            ⟨0, false, false⟩).1,
         (jscan g (rest'.take (scanned.length + 1)) (rest'.drop (scanned.length + 1))
            ⟨0, false, false⟩).2)
      else jscan g (scanned ++ [b]) rest' (scanStep s b)) :=
  rfl

/-- Advancing `jscan` across an emission-free segment just folds the scan
state and moves the segment into `scanned`. -/
theorem jscan_noEmit (seg : List Nat) : ∀ (fuel : Nat) (scanned rest : List Nat) (s : ScanSt),
    scanned ≠ [] → noEmitB s seg = true →
    jscan (fuel + seg.length) scanned (seg ++ rest) s
      = jscan fuel (scanned ++ seg) rest (scanList s seg) := by
  induction seg with
  | nil =>
    intro fuel scanned rest s h1 h2
    simp [scanList]
  | cons b seg ih =>
    intro fuel scanned rest s h1 h2
    simp only [noEmitB, Bool.and_eq_true, Bool.not_eq_true'] at h2
    have hip : (!scanned.isEmpty) = true := by
      cases scanned with
      | nil => exact absurd rfl h1
      | cons a l => rfl
    have hlen : fuel + (b :: seg).length = (fuel + seg.length) + 1 := by
      simp [List.length_cons]; omega
    rw [hlen]
    show jscan ((fuel + seg.length) + 1) scanned (b :: (seg ++ rest)) s = _
    rw [jscan_cons, hip, h2.1, if_neg (by simp)]
    rw [ih fuel (scanned ++ [b]) rest (scanStep s b) (by simp) h2.2]
    simp only [List.append_assoc, List.cons_append, List.nil_append, scanList]

theorem emitsAt_false_of_iPos_false (s : ScanSt) (b : Nat) :
    emitsAt s b false = false := by
  simp [emitsAt]

/-- A byte that is not `"`, `\\`, `{` or `}` leaves the scan state
unchanged when no escape is pending. -/
theorem scanStep_plain (s : ScanSt) (b : Nat) (hesc : s.escaped = false)
    (h92 : b ≠ 92) (h34 : b ≠ 34) (h123 : b ≠ 123) (h125 : b ≠ 125) :
    scanStep s b = s := by
  obtain ⟨bc, ins, esc⟩ := s
  simp only at hesc
  subst hesc
  cases ins <;> simp [scanStep, updBC, h92, h34, h123, h125]

theorem emitsAt_plain (s : ScanSt) (b : Nat) (hbc : 1 ≤ s.bc)
    (h123 : b ≠ 123) (h125 : b ≠ 125) :
    emitsAt s b true = false := by
  have : updBC s b = s.bc := by simp [updBC, h123, h125]
  simp only [emitsAt, this]
  have : (s.bc == 0) = false := by
    rw [beq_eq_false_iff_ne]
    omega
  simp [this]

/-- A segment of plain bytes is scanned without effect and without
emission. -/
theorem scan_plainSeg (l : List Nat) : ∀ (s : ScanSt), s.escaped = false → 1 ≤ s.bc →
    (∀ b ∈ l, b ≠ 92 ∧ b ≠ 34 ∧ b ≠ 123 ∧ b ≠ 125) →
    scanList s l = s ∧ noEmitB s l = true := by
  induction l with
  | nil => intro s _ _ _; exact ⟨rfl, rfl⟩
  | cons b l ih =>
    intro s hesc hbc hb
    have hbh := hb b (List.mem_cons_self b l)
    have hstep : scanStep s b = s := scanStep_plain s b hesc hbh.1 hbh.2.1 hbh.2.2.1 hbh.2.2.2
    have hemit : emitsAt s b true = false := emitsAt_plain s b hbc hbh.2.2.1 hbh.2.2.2
    have ihres := ih s hesc hbc (fun x hx => hb x (List.mem_cons_of_mem b hx))
    constructor
    · show scanList (scanStep s b) l = s
      rw [hstep]; exact ihres.1
    · show (!(emitsAt s b true) && noEmitB (scanStep s b) l) = true
      rw [hemit, hstep, ihres.2]; rfl

/-- Scanning the escaped body of a string literal: the state is inside a
string, so braces are ignored and nothing is emitted. -/
theorem scan_escapeBytes (k : List Nat) : ∀ (s : ScanSt), s.inString = true → s.escaped = false →
    scanList s (escapeBytes k) = s ∧ noEmitB s (escapeBytes k) = true := by
  induction k with
  | nil => intro s _ _; exact ⟨rfl, rfl⟩
  | cons b k ih =>
    intro s hins hesc
    obtain ⟨bc, ins, esc⟩ := s
    simp only at hins hesc
    subst hins; subst hesc
    have hflat : escapeBytes (b :: k) = escapeByte b ++ escapeBytes k := by
      simp [escapeBytes]
    by_cases hb : b = 34 ∨ b = 92
    · have he : escapeByte b = [92, b] := by unfold escapeByte; rw [if_pos hb]
      have hs1 : scanStep ⟨bc, true, false⟩ 92 = ⟨bc, true, true⟩ := by
        simp [scanStep]
      have hs2 : scanStep ⟨bc, true, true⟩ b = ⟨bc, true, false⟩ := by
        simp [scanStep]
      have he1 : emitsAt ⟨bc, true, false⟩ 92 true = false := by simp [emitsAt]
      have he2 : emitsAt ⟨bc, true, true⟩ b true = false := by simp [emitsAt]
      have ihres := ih ⟨bc, true, false⟩ rfl rfl
      rw [hflat, he]
      constructor
      · rw [scanList_append]
        show scanList (scanList (scanStep ⟨bc, true, false⟩ 92) [b]) (escapeBytes k) = _
        rw [hs1]
        show scanList (scanStep ⟨bc, true, true⟩ b) (escapeBytes k) = _
        rw [hs2]; exact ihres.1
      · rw [noEmitB_append]
        have hn : noEmitB ⟨bc, true, false⟩ [92, b] = true := by
          show (!(emitsAt ⟨bc, true, false⟩ 92 true) &&
            (!(emitsAt (scanStep ⟨bc, true, false⟩ 92) b true) && true)) = true
          rw [he1, hs1, he2]; rfl
        rw [hn]
        show (true && noEmitB (scanList ⟨bc, true, false⟩ [92, b]) (escapeBytes k)) = true
        have : scanList ⟨bc, true, false⟩ [92, b] = ⟨bc, true, false⟩ := by
          show scanList (scanStep ⟨bc, true, false⟩ 92) [b] = _
          rw [hs1]
          show scanList (scanStep ⟨bc, true, true⟩ b) [] = _
          rw [hs2]; rfl
        rw [this, ihres.2]
        rfl
    · push_neg at hb
      have he : escapeByte b = [b] := by
        unfold escapeByte
        rw [if_neg]
        push_neg
        exact hb
      have hs1 : scanStep ⟨bc, true, false⟩ b = ⟨bc, true, false⟩ := by
        simp [scanStep, hb.1, hb.2]
      have he1 : emitsAt ⟨bc, true, false⟩ b true = false := by simp [emitsAt]
      have ihres := ih ⟨bc, true, false⟩ rfl rfl
      rw [hflat, he]
      constructor
      · show scanList (scanStep ⟨bc, true, false⟩ b) (escapeBytes k) = _
        rw [hs1]; exact ihres.1
      · show (!(emitsAt ⟨bc, true, false⟩ b true) && noEmitB (scanStep ⟨bc, true, false⟩ b) (escapeBytes k)) = true
        rw [he1, hs1, ihres.2]; rfl

/-- Scanning a full string literal from outside a string returns to the
same state without emission. -/
theorem scan_strLit (k : List Nat) (s : ScanSt) (hins : s.inString = false)
    (hesc : s.escaped = false) :
    scanList s (strLit k) = s ∧ noEmitB s (strLit k) = true := by
  obtain ⟨bc, ins, esc⟩ := s
  simp only at hins hesc
  subst hins; subst hesc
  have hs1 : scanStep ⟨bc, false, false⟩ 34 = ⟨bc, true, false⟩ := by
    simp [scanStep]
  have he1 : emitsAt ⟨bc, false, false⟩ 34 true = false := by simp [emitsAt]
  have hs2 : scanStep ⟨bc, true, false⟩ 34 = ⟨bc, false, false⟩ := by
    simp [scanStep]
  have he2 : emitsAt ⟨bc, true, false⟩ 34 true = false := by simp [emitsAt]
  have hesc2 := scan_escapeBytes k ⟨bc, true, false⟩ rfl rfl
  constructor
  · show scanList (scanStep ⟨bc, false, false⟩ 34) (escapeBytes k ++ [34]) = _
    rw [hs1, scanList_append, hesc2.1]
    show scanList (scanStep ⟨bc, true, false⟩ 34) [] = _
    rw [hs2]; rfl
  · show (!(emitsAt ⟨bc, false, false⟩ 34 true) &&
      noEmitB (scanStep ⟨bc, false, false⟩ 34) (escapeBytes k ++ [34])) = true
    rw [he1, hs1, noEmitB_append, hesc2.1, hesc2.2]
    show (!false && (true && (!(emitsAt ⟨bc, true, false⟩ 34 true) && true))) = true
    rw [he2]; rfl

theorem scan_seg_append (a b : List Nat) (s : ScanSt)
    (ha : scanList s a = s ∧ noEmitB s a = true)
    (hb : scanList s b = s ∧ noEmitB s b = true) :
    scanList s (a ++ b) = s ∧ noEmitB s (a ++ b) = true := by
  constructor
  · rw [scanList_append, ha.1, hb.1]
  · rw [noEmitB_append, ha.1, ha.2, hb.2]; rfl

theorem scan_seg_cons (b : Nat) (l : List Nat) (s : ScanSt)
    (hstep : scanStep s b = s) (hemit : emitsAt s b true = false)
    (hl : scanList s l = s ∧ noEmitB s l = true) :
    scanList s (b :: l) = s ∧ noEmitB s (b :: l) = true := by
  constructor
  · show scanList (scanStep s b) l = s
    rw [hstep]; exact hl.1
  · show (!(emitsAt s b true) && noEmitB (scanStep s b) l) = true
    rw [hemit, hstep, hl.2]; rfl

theorem scanStep_open (bc : Int) :
    scanStep ⟨bc, false, false⟩ 123 = ⟨bc + 1, false, false⟩ := by
  simp [scanStep, updBC]

theorem scanStep_close (bc : Int) :
    scanStep ⟨bc, false, false⟩ 125 = ⟨bc - 1, false, false⟩ := by
  simp [scanStep, updBC]

theorem emitsAt_open (bc : Int) (h : 0 ≤ bc) :
    emitsAt ⟨bc, false, false⟩ 123 true = false := by
  have hne : updBC ⟨bc, false, false⟩ 123 ≠ 0 := by
    simp [updBC]; omega
  simp [emitsAt, beq_eq_false_iff_ne.mpr hne]

theorem emitsAt_close (bc : Int) (h : 2 ≤ bc) :
    emitsAt ⟨bc, false, false⟩ 125 true = false := by
  have hne : updBC ⟨bc, false, false⟩ 125 ≠ 0 := by
    simp [updBC]; omega
  simp [emitsAt, beq_eq_false_iff_ne.mpr hne]

mutual
/-- Scanning the serialization of any JSON value from a state strictly
inside an object (`bc ≥ 1`, outside strings, no pending escape) returns to
the same state and never satisfies the emission test. -/
theorem scan_stringify (j : Json) : ∀ (bc : Int), 1 ≤ bc →
    scanList ⟨bc, false, false⟩ (stringify j) = ⟨bc, false, false⟩ ∧
    noEmitB ⟨bc, false, false⟩ (stringify j) = true := by
  cases j with
  | null => intro bc h; exact scan_plainSeg _ _ rfl h (by decide)
  | bool b =>
    cases b with
    | true => intro bc h; exact scan_plainSeg _ _ rfl h (by decide)
    | false => intro bc h; exact scan_plainSeg _ _ rfl h (by decide)
  | num n =>
    intro bc h
    apply scan_plainSeg _ _ rfl h
    intro b hb
    have hd := natBytes_digits n b hb
    exact ⟨by omega, by omega, by omega, by omega⟩
  | str s => intro bc h; exact scan_strLit s ⟨bc, false, false⟩ rfl rfl
  | arr xs =>
    cases xs with
    | nil => intro bc h; exact scan_plainSeg _ _ rfl h (by decide)
    | cons x xs2 =>
      intro bc h
      apply scan_seg_cons 91
      · exact scanStep_plain _ _ rfl (by omega) (by omega) (by omega) (by omega)
      · exact emitsAt_plain _ _ h (by omega) (by omega)
      · exact scan_seg_append _ _ _ (scan_stringify x bc h)
          (scan_seg_append _ _ _ (scan_arrRest xs2 bc h)
            (scan_plainSeg _ _ rfl h (by decide)))
  | obj fs =>
    cases fs with
    | nil =>
      intro bc h
      constructor
      · show scanList (scanStep ⟨bc, false, false⟩ 123) [125] = _
        rw [scanStep_open]
        show scanStep ⟨bc + 1, false, false⟩ 125 = _
        rw [scanStep_close]
        have he : bc + 1 - 1 = bc := by omega
        rw [he]
      · show (!(emitsAt ⟨bc, false, false⟩ 123 true) &&
            noEmitB (scanStep ⟨bc, false, false⟩ 123) [125]) = true
        rw [emitsAt_open bc (by omega), scanStep_open]
        show (!false && (!(emitsAt ⟨bc + 1, false, false⟩ 125 true) && true)) = true
        rw [emitsAt_close (bc + 1) (by omega)]
        rfl
    | cons k v fs2 =>
      intro bc h
      have hshape : stringify (Json.obj (JsonObj.cons k v fs2))
          = 123 :: ((strLit k ++ ((58 :: stringify v) ++ stringifyObjRest fs2)) ++ [125]) := by
        show 123 :: (strLit k ++ ((58 :: stringify v) ++ (stringifyObjRest fs2 ++ [125]))) = _
        simp
      rw [hshape]
      have hint : scanList ⟨bc + 1, false, false⟩
            (strLit k ++ ((58 :: stringify v) ++ stringifyObjRest fs2)) = ⟨bc + 1, false, false⟩ ∧
          noEmitB ⟨bc + 1, false, false⟩
            (strLit k ++ ((58 :: stringify v) ++ stringifyObjRest fs2)) = true := by
        apply scan_seg_append
        · exact scan_strLit k _ rfl rfl
        · apply scan_seg_append
          · apply scan_seg_cons 58
            · exact scanStep_plain _ _ rfl (by omega) (by omega) (by omega) (by omega)
            · exact emitsAt_plain _ _ (by show (1 : Int) ≤ bc + 1; omega) (by omega) (by omega)
            · exact scan_stringify v (bc + 1) (by omega)
          · exact scan_objRest fs2 (bc + 1) (by omega)
      constructor
      · show scanList (scanStep ⟨bc, false, false⟩ 123)
            ((strLit k ++ ((58 :: stringify v) ++ stringifyObjRest fs2)) ++ [125]) = _
        rw [scanStep_open, scanList_append, hint.1]
        show scanStep ⟨bc + 1, false, false⟩ 125 = _
        rw [scanStep_close]
        have he : bc + 1 - 1 = bc := by omega
        rw [he]
      · show (!(emitsAt ⟨bc, false, false⟩ 123 true) &&
            noEmitB (scanStep ⟨bc, false, false⟩ 123)
              ((strLit k ++ ((58 :: stringify v) ++ stringifyObjRest fs2)) ++ [125])) = true
        rw [emitsAt_open bc (by omega), scanStep_open, noEmitB_append, hint.1, hint.2]
        show (!false && (true && (!(emitsAt ⟨bc + 1, false, false⟩ 125 true) && true))) = true
        rw [emitsAt_close (bc + 1) (by omega)]
        rfl
theorem scan_arrRest (xs : JsonArr) : ∀ (bc : Int), 1 ≤ bc →
    scanList ⟨bc, false, false⟩ (stringifyArrRest xs) = ⟨bc, false, false⟩ ∧
    noEmitB ⟨bc, false, false⟩ (stringifyArrRest xs) = true := by
  cases xs with
  | nil => intro bc h; exact ⟨rfl, rfl⟩
  | cons x xs2 =>
    intro bc h
    apply scan_seg_cons 44
    · exact scanStep_plain _ _ rfl (by omega) (by omega) (by omega) (by omega)
    · exact emitsAt_plain _ _ h (by omega) (by omega)
    · exact scan_seg_append _ _ _ (scan_stringify x bc h) (scan_arrRest xs2 bc h)
theorem scan_objRest (fs : JsonObj) : ∀ (bc : Int), 1 ≤ bc →
    scanList ⟨bc, false, false⟩ (stringifyObjRest fs) = ⟨bc, false, false⟩ ∧
    noEmitB ⟨bc, false, false⟩ (stringifyObjRest fs) = true := by
  cases fs with
  | nil => intro bc h; exact ⟨rfl, rfl⟩
  | cons k2 v2 fs2 =>
    intro bc h
    apply scan_seg_cons 44
    · exact scanStep_plain _ _ rfl (by omega) (by omega) (by omega) (by omega)
    · exact emitsAt_plain _ _ h (by omega) (by omega)
    · apply scan_seg_append
      · exact scan_strLit k2 _ rfl rfl
      · apply scan_seg_append
        · apply scan_seg_cons 58
          · exact scanStep_plain _ _ rfl (by omega) (by omega) (by omega) (by omega)
          · exact emitsAt_plain _ _ h (by omega) (by omega)
          · exact scan_stringify v2 bc h
        · exact scan_objRest fs2 bc h
end

/-- The brace scan on exactly the serialization of a JSON object emits that
serialization once and leaves an empty buffer. -/
theorem jscan_stringify_obj (fs : JsonObj) :
    jscan (stringify (Json.obj fs)).length [] (stringify (Json.obj fs)) ⟨0, false, false⟩
      = ([stringify (Json.obj fs)], []) := by
  obtain ⟨I, hI, hint⟩ : ∃ I, stringify (Json.obj fs) = 123 :: (I ++ [125]) ∧
      (scanList ⟨1, false, false⟩ I = ⟨1, false, false⟩ ∧
        noEmitB ⟨1, false, false⟩ I = true) := by
    cases fs with
    | nil => exact ⟨[], rfl, ⟨rfl, rfl⟩⟩
    | cons k v fs2 =>
      refine ⟨strLit k ++ ((58 :: stringify v) ++ stringifyObjRest fs2), ?_, ?_⟩
      · show 123 :: (strLit k ++ ((58 :: stringify v) ++ (stringifyObjRest fs2 ++ [125]))) = _
        simp
      · apply scan_seg_append
        · exact scan_strLit k _ rfl rfl
        · apply scan_seg_append
          · apply scan_seg_cons 58
            · exact scanStep_plain _ _ rfl (by omega) (by omega) (by omega) (by omega)
            · exact emitsAt_plain _ _ (by norm_num) (by omega) (by omega)
            · exact scan_stringify v 1 (by norm_num)
          · exact scan_objRest fs2 1 (by norm_num)
  rw [hI]
  have hlen : (123 :: (I ++ [125])).length = (1 + I.length) + 1 := by
    simp [List.length_cons, List.length_append]
    omega
  rw [hlen]
  have step1 : jscan ((1 + I.length) + 1) [] (123 :: (I ++ [125])) ⟨0, false, false⟩
      = jscan (1 + I.length) [123] (I ++ [125]) ⟨1, false, false⟩ := rfl
  rw [step1]
  rw [jscan_noEmit I 1 [123] [125] ⟨1, false, false⟩ (by simp) hint.2]
  rw [hint.1]
  show jscan (0 + 1) (123 :: I) [125] ⟨1, false, false⟩ = _
  rw [jscan_cons]
  rw [if_pos (show emitsAt ⟨1, false, false⟩ 125 (!(123 :: I).isEmpty) = true from rfl)]
  simp [List.take_nil, List.drop_nil, jscan]

/-- One-step unfolding of the decode loop with no pending body. -/
theorem procLoop_step0 (f : Nat) (buffer : List Nat) :
    procLoop (f + 1) buffer 0 =
      (if buffer.length < 4 then ([], buffer, 0)
       else
         match findJsonStart buffer with
         | some j =>
           let res := jscan (buffer.drop j).length [] (buffer.drop j) ⟨0, false, false⟩
           (res.1, res.2, 0)
         | none =>
           let len := readLen buffer
           if 100 * 1024 * 1024 < len then procLoop f (buffer.drop 1) 0
           else
             let buf2 := buffer.drop 4
             if buf2.length < len then
               if 100 * 1024 * 1024 < len then ([], [], 0) else ([], buf2, len)
             else
               let res := procLoop f (buf2.drop len) 0
               (buf2.take len :: res.1, res.2.1, res.2.2)) :=
  rfl

/-- One-step unfolding of the decode loop while waiting for a frame body. -/
theorem procLoop_stepP (f : Nat) (buffer : List Nat) (pending : Nat) (h : pending ≠ 0) :
    procLoop (f + 1) buffer pending =
      (if buffer.length < pending then
        if 100 * 1024 * 1024 < pending then ([], [], 0) else ([], buffer, pending)
      else
        let res := procLoop f (buffer.drop pending) 0
        (buffer.take pending :: res.1, res.2.1, res.2.2)) := by
  show (if pending = 0 then _ else _) = _
  rw [if_neg h]

theorem findJsonStart_frame (b0 b1 b2 b3 : Nat) (t : List Nat)
    (h0 : b0 ≠ 123) (h1 : b1 ≠ 123) (h2 : b2 ≠ 123) (h3 : b3 ≠ 123) :
    findJsonStart (b0 :: b1 :: b2 :: b3 :: 123 :: t) = some 4 := by
  unfold findJsonStart
  simp [findJsonStartAux, h0, h1, h2, h3]

theorem readLen_lenLE4 (n : Nat) (p : List Nat) (h : n < 4294967296) :
    readLen (lenLE4 n ++ p) = n := by
  simp only [readLen, lenLE4, readU32LE, List.cons_append, List.getD_cons_zero,
    List.getD_cons_succ]
  omega

/-- Decoding one whole frame in a single chunk: provided no byte of the
length header is `{` (0x7B), the decoder detects the payload's JSON at
offset 4, scans it out and emits exactly the payload. -/
theorem procLoop_frame (fs : JsonObj)
    (hclean : ∀ b ∈ lenLE4 (stringify (Json.obj fs)).length, b ≠ 123) :
    procLoop ((encodeFrame (stringify (Json.obj fs))).length + 1)
        (encodeFrame (stringify (Json.obj fs))) 0
      = ([stringify (Json.obj fs)], [], 0) := by
  obtain ⟨tp, hp⟩ : ∃ tp, stringify (Json.obj fs) = 123 :: tp := by
    cases fs with
    | nil => exact ⟨_, rfl⟩
    | cons k v fs2 => exact ⟨_, rfl⟩
  have h0 := hclean _ (show (stringify (Json.obj fs)).length % 256 ∈ _ by simp [lenLE4])
  have h1 := hclean _
    (show (stringify (Json.obj fs)).length / 256 % 256 ∈ lenLE4 (stringify (Json.obj fs)).length by
      simp [lenLE4])
  have h2 := hclean _
    (show (stringify (Json.obj fs)).length / 65536 % 256 ∈ lenLE4 (stringify (Json.obj fs)).length by
      simp [lenLE4])
  have h3 := hclean _
    (show (stringify (Json.obj fs)).length / 16777216 % 256 ∈ lenLE4 (stringify (Json.obj fs)).length by
      simp [lenLE4])
  rw [procLoop_step0]
  have hlen : (encodeFrame (stringify (Json.obj fs))).length
      = (stringify (Json.obj fs)).length + 4 := by
    simp [encodeFrame, lenLE4]
  rw [if_neg (by omega)]
  have hfind : findJsonStart (encodeFrame (stringify (Json.obj fs))) = some 4 := by
    show findJsonStart (lenLE4 (stringify (Json.obj fs)).length ++ stringify (Json.obj fs)) = some 4
    rw [show lenLE4 (stringify (Json.obj fs)).length ++ stringify (Json.obj fs)
        = (stringify (Json.obj fs)).length % 256 :: ((stringify (Json.obj fs)).length / 256 % 256 ::
          ((stringify (Json.obj fs)).length / 65536 % 256 ::
            ((stringify (Json.obj fs)).length / 16777216 % 256 :: (123 :: tp)))) from by
      simp [lenLE4, hp]]
    exact findJsonStart_frame _ _ _ _ tp h0 h1 h2 h3
  rw [hfind]
  have hdrop : (encodeFrame (stringify (Json.obj fs))).drop 4 = stringify (Json.obj fs) := by
    show (lenLE4 (stringify (Json.obj fs)).length ++ stringify (Json.obj fs)).drop 4 = _
    simp [lenLE4]
  dsimp only
  rw [hdrop, jscan_stringify_obj fs]

theorem decodeSlices_frame (fs : JsonObj)
    (hclean : ∀ b ∈ lenLE4 (stringify (Json.obj fs)).length, b ≠ 123) :
    decodeSlices [encodeFrame (stringify (Json.obj fs))] = [stringify (Json.obj fs)] := by
  show ((processChunk initDecSt (encodeFrame (stringify (Json.obj fs)))).1 ++
      ([], _).1, _).1 = _
  show (processChunk initDecSt (encodeFrame (stringify (Json.obj fs)))).1 ++ [] = _
  rw [List.append_nil]
  show (procLoop ((([] : List Nat) ++ encodeFrame (stringify (Json.obj fs))).length + 1)
      (([] : List Nat) ++ encodeFrame (stringify (Json.obj fs))) 0).1 = _
  rw [List.nil_append, procLoop_frame fs hclean]

theorem feedChunks_nil (st : DecSt) : feedChunks st [] = ([], st) :=
  rfl

theorem feedChunks_cons (st : DecSt) (c : List Nat) (cs : List (List Nat)) :
    feedChunks st (c :: cs)
      = ((processChunk st c).1 ++ (feedChunks (processChunk st c).2 cs).1,
         (feedChunks (processChunk st c).2 cs).2) :=
  rfl

theorem feedChunks_append (cs1 : List (List Nat)) : ∀ (st : DecSt) (cs2 : List (List Nat)),
    feedChunks st (cs1 ++ cs2)
      = ((feedChunks st cs1).1 ++ (feedChunks (feedChunks st cs1).2 cs2).1,
         (feedChunks (feedChunks st cs1).2 cs2).2) := by
  induction cs1 with
  | nil => intro st cs2; simp [feedChunks_nil]
  | cons c cs ih =>
    intro st cs2
    rw [List.cons_append, feedChunks_cons, ih, feedChunks_cons]
    simp [List.append_assoc]

theorem processChunk_eq (st : DecSt) (c : List Nat) :
    processChunk st c
      = ((procLoop ((st.buffer ++ c).length + 1) (st.buffer ++ c) st.pending).1,
         ⟨(procLoop ((st.buffer ++ c).length + 1) (st.buffer ++ c) st.pending).2.1,
          (procLoop ((st.buffer ++ c).length + 1) (st.buffer ++ c) st.pending).2.2⟩) :=
  rfl

/-- A chunk arriving while fewer than four bytes are buffered (and no body
is pending) is only buffered. -/
theorem processChunk_short (buf : List Nat) (b : Nat) (h : buf.length + 1 < 4) :
    processChunk ⟨buf, 0⟩ [b] = ([], ⟨buf ++ [b], 0⟩) := by
  rw [processChunk_eq]
  have hres : procLoop ((buf ++ [b]).length + 1) (buf ++ [b]) 0 = ([], buf ++ [b], 0) := by
    rw [procLoop_step0, if_pos (by simp; omega)]
  simp only [hres]

theorem findJsonStart_hdr (b0 b1 b2 b3 : Nat)
    (h0 : b0 ≠ 123) (h1 : b1 ≠ 123) (h2 : b2 ≠ 123) (h3 : b3 ≠ 123) :
    findJsonStart [b0, b1, b2, b3] = none := by
  simp [findJsonStart, findJsonStartAux, h0, h1, h2, h3]

/-- The fourth header byte: the length is read and the decoder starts
waiting for the body. -/
theorem processChunk_hdr4 (b0 b1 b2 b3 : Nat) (L : Nat)
    (h0 : b0 ≠ 123) (h1 : b1 ≠ 123) (h2 : b2 ≠ 123) (h3 : b3 ≠ 123)
    (hread : readLen [b0, b1, b2, b3] = L)
    (hceil : ¬ (100 * 1024 * 1024 < L)) (hL : 1 ≤ L) :
    processChunk ⟨[b0, b1, b2], 0⟩ [b3] = ([], ⟨[], L⟩) := by
  rw [processChunk_eq]
  have hres : procLoop (([b0, b1, b2] ++ [b3]).length + 1) ([b0, b1, b2] ++ [b3]) 0
      = ([], [], L) := by
    show procLoop ([b0, b1, b2, b3].length + 1) [b0, b1, b2, b3] 0 = ([], [], L)
    rw [procLoop_step0, if_neg (by simp)]
    rw [findJsonStart_hdr b0 b1 b2 b3 h0 h1 h2 h3]
    dsimp only
    rw [hread, if_neg hceil]
    rw [if_pos (by simp; omega), if_neg hceil]
    rfl
  simp only [hres]

/-- Feeding the four header bytes one at a time. -/
theorem feedChunks_hdr4 (b0 b1 b2 b3 : Nat) (L : Nat)
    (h0 : b0 ≠ 123) (h1 : b1 ≠ 123) (h2 : b2 ≠ 123) (h3 : b3 ≠ 123)
    (hread : readLen [b0, b1, b2, b3] = L)
    (hceil : ¬ (100 * 1024 * 1024 < L)) (hL : 1 ≤ L) :
    feedChunks initDecSt [[b0], [b1], [b2], [b3]] = ([], ⟨[], L⟩) := by
  rw [feedChunks_cons]
  rw [show processChunk initDecSt [b0] = ([], ⟨[b0], 0⟩) from processChunk_short [] b0 (by simp)]
  rw [feedChunks_cons]
  rw [show processChunk ⟨[b0], 0⟩ [b1] = ([], ⟨[b0, b1], 0⟩) from
    processChunk_short [b0] b1 (by simp)]
  rw [feedChunks_cons]
  rw [show processChunk ⟨[b0, b1], 0⟩ [b2] = ([], ⟨[b0, b1, b2], 0⟩) from
    processChunk_short [b0, b1] b2 (by simp)]
  rw [feedChunks_cons]
  rw [processChunk_hdr4 b0 b1 b2 b3 L h0 h1 h2 h3 hread hceil hL]
  rw [feedChunks_nil]
  rfl

/-- Feeding the frame body one byte at a time: bytes accumulate until the
pending length is reached, then the whole body is emitted. -/
theorem feedChunks_body (L : Nat) (hceil : ¬ (100 * 1024 * 1024 < L)) :
    ∀ (rest produced : List Nat), produced.length + rest.length = L → rest ≠ [] →
    feedChunks ⟨produced, L⟩ (bytewise rest) = ([produced ++ rest], ⟨[], 0⟩) := by
  intro rest
  induction rest with
  | nil => intro produced _ h2; exact absurd rfl h2
  | cons b rest2 ih =>
    intro produced h1 _
    have hLpos : L ≠ 0 := by simp at h1; omega
    show feedChunks ⟨produced, L⟩ ([b] :: bytewise rest2) = _
    rw [feedChunks_cons]
    cases rest2 with
    | nil =>
      have hfull : (produced ++ [b]).length = L := by simp at h1 ⊢; omega
      have hchunk : processChunk ⟨produced, L⟩ [b] = ([produced ++ [b]], ⟨[], 0⟩) := by
        rw [processChunk_eq]
        have hres : procLoop ((produced ++ [b]).length + 1) (produced ++ [b]) L
            = ([produced ++ [b]], [], 0) := by
          rw [procLoop_stepP _ _ _ hLpos, if_neg (by omega)]
          dsimp only
          rw [← hfull, List.drop_length, List.take_length]
          obtain ⟨g, hg⟩ : ∃ g, (produced ++ [b]).length = g + 1 := ⟨produced.length, by simp⟩
          rw [hg, procLoop_step0, if_pos (by simp)]
        simp only [hres]
      rw [hchunk]
      simp [bytewise, feedChunks_nil]
    | cons b2 rest3 =>
      have hlt : (produced ++ [b]).length < L := by simp at h1 ⊢; omega
      have hchunk : processChunk ⟨produced, L⟩ [b] = ([], ⟨produced ++ [b], L⟩) := by
        rw [processChunk_eq]
        have hres : procLoop ((produced ++ [b]).length + 1) (produced ++ [b]) L
            = ([], produced ++ [b], L) := by
          rw [procLoop_stepP _ _ _ hLpos, if_pos hlt, if_neg hceil]
        simp only [hres]
      rw [hchunk]
      rw [ih (produced ++ [b]) (by simp at h1 ⊢; omega) (by simp)]
      simp

/-- Decoding one whole frame delivered one byte at a time. -/
theorem decodeSlices_frame_bytewise (fs : JsonObj)
    (hclean : ∀ b ∈ lenLE4 (stringify (Json.obj fs)).length, b ≠ 123)
    (hceil : (stringify (Json.obj fs)).length ≤ 100 * 1024 * 1024) :
    decodeSlices (bytewise (encodeFrame (stringify (Json.obj fs))))
      = [stringify (Json.obj fs)] := by
  obtain ⟨tp, hp⟩ : ∃ tp, stringify (Json.obj fs) = 123 :: tp := by
    cases fs with
    | nil => exact ⟨_, rfl⟩
    | cons k v fs2 => exact ⟨_, rfl⟩
  have h0 := hclean _ (show (stringify (Json.obj fs)).length % 256 ∈ _ by simp [lenLE4])
  have h1 := hclean _
    (show (stringify (Json.obj fs)).length / 256 % 256
        ∈ lenLE4 (stringify (Json.obj fs)).length by simp [lenLE4])
  have h2 := hclean _
    (show (stringify (Json.obj fs)).length / 65536 % 256
        ∈ lenLE4 (stringify (Json.obj fs)).length by simp [lenLE4])
  have h3 := hclean _
    (show (stringify (Json.obj fs)).length / 16777216 % 256
        ∈ lenLE4 (stringify (Json.obj fs)).length by simp [lenLE4])
  have hbw : bytewise (encodeFrame (stringify (Json.obj fs)))
      = [[(stringify (Json.obj fs)).length % 256], [(stringify (Json.obj fs)).length / 256 % 256],
         [(stringify (Json.obj fs)).length / 65536 % 256],
         [(stringify (Json.obj fs)).length / 16777216 % 256]]
        ++ bytewise (stringify (Json.obj fs)) := by
    show bytewise (lenLE4 (stringify (Json.obj fs)).length ++ stringify (Json.obj fs)) = _
    simp [bytewise, lenLE4]
  have hLpos : 1 ≤ (stringify (Json.obj fs)).length := by rw [hp]; simp
  have hread : readLen [(stringify (Json.obj fs)).length % 256,
      (stringify (Json.obj fs)).length / 256 % 256,
      (stringify (Json.obj fs)).length / 65536 % 256,
      (stringify (Json.obj fs)).length / 16777216 % 256] = (stringify (Json.obj fs)).length := by
    have := readLen_lenLE4 (stringify (Json.obj fs)).length [] (by omega)
    simpa [lenLE4] using this
  unfold decodeSlices
  rw [hbw, feedChunks_append]
  rw [feedChunks_hdr4 _ _ _ _ _ h0 h1 h2 h3 hread (by omega) hLpos]
  rw [feedChunks_body (stringify (Json.obj fs)).length (by omega)
    (stringify (Json.obj fs)) [] (by simp) (by rw [hp]; simp)]
  simp

/-! ## Claims C1 and C2: the framing round trip and chunking invariance -/

/-- A small demonstration envelope: the JSON object with one field
`"a": 1`. -/
def demoObj : JsonObj := JsonObj.cons [97] (Json.num 1) JsonObj.nil

/-- A second demonstration envelope: `"b": 2`. -/
def demoObjB : JsonObj := JsonObj.cons [98] (Json.num 2) JsonObj.nil

/-- A valid envelope whose UTF-8 JSON serialization is exactly 123 = 0x7B
bytes long: `{"a":"xx…x"}` with 115 `x`s.  Its length header therefore
contains the byte `{`. -/
def envelope123 : Json :=
  Json.obj (JsonObj.cons [97] (Json.str (List.replicate 115 120)) JsonObj.nil)

/-- C1 (counterexample): the framing round trip fails as stated.  For the
valid envelope `envelope123`, whose payload length is 123 (the byte code of
`{`), the decoder misdetects the length header as JSON, desynchronizes its
brace count and emits nothing at all, so `decode(encode(E))` is `[]`, not
`[E]`. -/
theorem c1_roundTrip_counterexample :
    (stringify envelope123).length = 123 ∧
    decodeMsgs [encodeFrame (stringify envelope123)] = [] ∧
    decodeMsgs [encodeFrame (stringify envelope123)] ≠ [envelope123] := by
  refine ⟨rfl, rfl, ?_⟩
  intro h
  rw [show decodeMsgs [encodeFrame (stringify envelope123)] = [] from rfl] at h
  exact List.noConfusion h

/-- C1 (amended): for every valid Envelope E (a JSON object) none of whose
4 little-endian length-header bytes equals 0x7B (`{`), feeding
`encode(E)` to the framing decoder emits exactly E and nothing else. -/
theorem c1_roundTrip (fs : JsonObj)
    (hclean : ∀ b ∈ lenLE4 (stringify (Json.obj fs)).length, b ≠ 123) :
    decodeMsgs [encodeFrame (stringify (Json.obj fs))] = [Json.obj fs] := by
  unfold decodeMsgs
  rw [decodeSlices_frame fs hclean]
  simp [List.filterMap_cons, parseJson_stringify]

/-- C1 witness: the amended round trip at the concrete envelope
`{"a": 1}`. -/
theorem c1_roundTrip_witness :
    (∀ b ∈ lenLE4 (stringify (Json.obj demoObj)).length, b ≠ 123) ∧
    decodeMsgs [encodeFrame (stringify (Json.obj demoObj))] = [Json.obj demoObj] :=
  ⟨by decide, c1_roundTrip demoObj (by decide)⟩

/-- The two-frame stream used to refute chunking invariance. -/
def twoFrames : List Nat :=
  encodeFrame (stringify (Json.obj demoObj)) ++ encodeFrame (stringify (Json.obj demoObjB))

/-- C2 (counterexample): decoding is not invariant under chunking.  For the
two concatenated frames `{"a":1}` and `{"b":2}`, feeding the bytes one at a
time yields both envelopes, while feeding them as one contiguous buffer
yields only the first: after the JSON-detection path emits the first
payload, the scan loop resumes at a skipped offset and the `break` leaves
the second frame buffered forever. -/
theorem c2_chunkInvariance_counterexample :
    decodeMsgs [twoFrames] = [Json.obj demoObj] ∧
    decodeMsgs (bytewise twoFrames) = [Json.obj demoObj, Json.obj demoObjB] ∧
    decodeMsgs [twoFrames] ≠ decodeMsgs (bytewise twoFrames) := by
  refine ⟨rfl, rfl, ?_⟩
  intro h
  rw [show decodeMsgs [twoFrames] = [Json.obj demoObj] from rfl,
    show decodeMsgs (bytewise twoFrames) = [Json.obj demoObj, Json.obj demoObjB] from rfl] at h
  have hlen := congrArg List.length h
  simp at hlen

/-- C2 (amended): for a single encoded frame of a valid Envelope (a JSON
object) whose length-header bytes avoid 0x7B and whose payload is below
the 100 MB sanity ceiling, feeding the bytes one at a time and feeding
them as one contiguous buffer decode to the identical sequence of
Envelopes. -/
theorem c2_chunkInvariance (fs : JsonObj)
    (hclean : ∀ b ∈ lenLE4 (stringify (Json.obj fs)).length, b ≠ 123)
    (hceil : (stringify (Json.obj fs)).length ≤ 100 * 1024 * 1024) :
    decodeMsgs [encodeFrame (stringify (Json.obj fs))]
      = decodeMsgs (bytewise (encodeFrame (stringify (Json.obj fs)))) := by
  unfold decodeMsgs
  rw [decodeSlices_frame fs hclean, decodeSlices_frame_bytewise fs hclean hceil]

/-- C2 witness: chunking invariance of the single frame `{"b": 2}`. -/
theorem c2_chunkInvariance_witness :
    (∀ b ∈ lenLE4 (stringify (Json.obj demoObjB)).length, b ≠ 123) ∧
    (stringify (Json.obj demoObjB)).length ≤ 100 * 1024 * 1024 ∧
    decodeMsgs [encodeFrame (stringify (Json.obj demoObjB))]
      = decodeMsgs (bytewise (encodeFrame (stringify (Json.obj demoObjB)))) :=
  ⟨by decide, by decide, c2_chunkInvariance demoObjB (by decide) (by decide)⟩

/-! ## Claim C3: the relay server's overlapping-peer policy

Two variants of `startWSServer` exist in the repository: the connection
handler in src/native-host/index.js (lines 265-282) reuses a still-open
peer and closes the new connection, while the variant in
src/unnamed/part_000 (lines 812-832) always closes the old peer and adopts
the new one. -/

/-- `WebSocket.OPEN`. -/
def WS_OPEN : Nat := 1

/-- A relay-server peer connection: an identity and its `readyState`. -/
structure Peer where
  id : Nat
  readyState : Nat
deriving DecidableEq

inductive RelayEffect where
  | closePeer (id : Nat)
  | sendStatusConnected
deriving DecidableEq

/-- The `wss.on('connection')` handler of src/native-host/index.js: if the
existing client is still OPEN, reuse it and close the new connection
(returning early, before the status message); otherwise close the dead
client, adopt the new one and notify the extension. -/
def hostOnConnection (activeClient : Option Peer) (client : Peer) :
    Option Peer × List RelayEffect :=
  match activeClient with
  | some a =>
    if a.readyState = WS_OPEN then (some a, [.closePeer client.id])
    else (some client, [.closePeer a.id, .sendStatusConnected])
  | none => (some client, [.sendStatusConnected])

/-- The `wss.on('connection')` handler of the src/unnamed/part_000
variant: always close any existing client and adopt the new one. -/
def hostOnConnectionAlt (activeClient : Option Peer) (client : Peer) :
    Option Peer × List RelayEffect :=
  match activeClient with
  | some a => (some client, [.closePeer a.id, .sendStatusConnected])
  | none => (some client, [.sendStatusConnected])

/-- C3 (counterexample): the repository does not apply one single
overlapping-peer policy.  With the prior peer still open, the
src/native-host/index.js handler keeps the old peer and rejects the new
connection, while the part_000 handler adopts the new peer — the two relay
implementations resolve the same event in opposite ways. -/
theorem c3_policy_counterexample :
    (hostOnConnection (some ⟨0, WS_OPEN⟩) ⟨1, WS_OPEN⟩).1 = some ⟨0, WS_OPEN⟩ ∧
    (hostOnConnectionAlt (some ⟨0, WS_OPEN⟩) ⟨1, WS_OPEN⟩).1 = some ⟨1, WS_OPEN⟩ ∧
    (hostOnConnection (some ⟨0, WS_OPEN⟩) ⟨1, WS_OPEN⟩).1
      ≠ (hostOnConnectionAlt (some ⟨0, WS_OPEN⟩) ⟨1, WS_OPEN⟩).1 := by
  exact ⟨rfl, rfl, by decide⟩

/-- C3 (amended): each relay implementation is internally consistent for
every overlapping-connection event — src/native-host/index.js always
rejects the new connection in favor of the open peer, and the part_000
variant always replaces the old peer — but they embody opposite
policies. -/
theorem c3_policy_per_variant (a client : Peer) (hopen : a.readyState = WS_OPEN) :
    hostOnConnection (some a) client = (some a, [.closePeer client.id]) ∧
    hostOnConnectionAlt (some a) client
      = (some client, [.closePeer a.id, .sendStatusConnected]) := by
  constructor
  · simp [hostOnConnection, hopen]
  · rfl

/-- C3 witness: the per-variant policies at concrete peers. -/
theorem c3_policy_per_variant_witness :
    (Peer.mk 0 WS_OPEN).readyState = WS_OPEN ∧
    hostOnConnection (some ⟨0, WS_OPEN⟩) ⟨1, WS_OPEN⟩ = (some ⟨0, WS_OPEN⟩, [.closePeer 1]) ∧
    hostOnConnectionAlt (some ⟨0, WS_OPEN⟩) ⟨1, WS_OPEN⟩
      = (some ⟨1, WS_OPEN⟩, [.closePeer 0, .sendStatusConnected]) :=
  ⟨rfl, (c3_policy_per_variant ⟨0, WS_OPEN⟩ ⟨1, WS_OPEN⟩ rfl).1,
    (c3_policy_per_variant ⟨0, WS_OPEN⟩ ⟨1, WS_OPEN⟩ rfl).2⟩

/-! ## Claim C4: caller-side vs downstream-side command deadlines -/

/-- `CDP_TIMEOUT` of the Bridge Client (src/mcp-server/build/index.js,
`const CDP_TIMEOUT = 10000`). -/
def CDP_TIMEOUT : Nat := 10000

/-- The `setTimeout` deadline of `sendCDPCommand` in
src/extension/background.js (5 seconds, lines 333-335). -/
def extensionCdpTimeout : Nat := 5000

/-- The deadline of the `sendCDPCommand` variant in src/unnamed/part_000
(12 seconds, commented "longer than MCP server's 10 second timeout. This
ensures the MCP server times out first"). -/
def extensionCdpTimeoutAlt : Nat := 12000

/-- C4: the configured constants violate `caller_timeout <
downstream_timeout` for the extension executor in
src/extension/background.js (10000 is not below 5000); the part_000
variant documents and satisfies the intended invariant (10000 < 12000). -/
theorem c4_timeout_inversion :
    CDP_TIMEOUT = 10000 ∧ extensionCdpTimeout = 5000 ∧ extensionCdpTimeoutAlt = 12000 ∧
    ¬ (CDP_TIMEOUT < extensionCdpTimeout) ∧ CDP_TIMEOUT < extensionCdpTimeoutAlt := by
  decide

/-! ## Claims C5 and C7: the bridge client's close handler -/

/-- A pending CDP request entry of `pendingCDPRequests`: its correlation
id and its deadline-timer handle. -/
structure PendingReq where
  id : Nat
  timer : Nat
deriving DecidableEq

inductive Settlement where
  | resolved (id : Nat)
  | rejected (id : Nat) (message : String)
deriving DecidableEq

inductive ProcEffect where
  | exitProcess (code : Nat)
  | logLine (s : String)
  | scheduleReconnect (delayMs : Nat)
deriving DecidableEq

/-- `RECONNECT_INTERVAL` of the bridge client (2000 ms). -/
def RECONNECT_INTERVAL : Nat := 2000

/-- The rejection loop of the `ws.on('close')` handler
(src/mcp-server/build/index.js lines 996-1000): each pending request's
timer is cleared and its promise rejected with 'Native host
disconnected'. -/
def rejectAllPending : List PendingReq → List Settlement
  | [] => []
  | p :: rest => .rejected p.id "Native host disconnected" :: rejectAllPending rest

/-- Bridge-client state: whether the socket is connected and the pending
request table. -/
structure BridgeSt where
  socketOpen : Bool
  pending : List PendingReq
deriving DecidableEq

/-- The whole `ws.on('close')` handler (src/mcp-server/build/index.js
lines 986-1006): mark disconnected, reject every pending request, clear
the table, and schedule a reconnect attempt (never exiting). -/
def onSocketClose (st : BridgeSt) : BridgeSt × List Settlement × List ProcEffect :=
  (⟨false, []⟩, rejectAllPending st.pending, [.scheduleReconnect RECONNECT_INTERVAL])

theorem rejectAllPending_eq_map (l : List PendingReq) :
    rejectAllPending l = l.map (fun p => .rejected p.id "Native host disconnected") := by
  induction l with
  | nil => rfl
  | cons p rest ih => simp [rejectAllPending, ih]

/-- C5: when the connection to the relay closes, every outstanding
PendingRequest is rejected with the disconnection error and the
pending-request table is empty immediately after, for any number of
outstanding requests. -/
theorem c5_disconnect_rejects_all (st : BridgeSt) :
    (onSocketClose st).1.pending = [] ∧
    (onSocketClose st).2.1
      = st.pending.map (fun p => .rejected p.id "Native host disconnected") ∧
    (onSocketClose st).2.1.length = st.pending.length := by
  refine ⟨rfl, rejectAllPending_eq_map st.pending, ?_⟩
  rw [show (onSocketClose st).2.1 = rejectAllPending st.pending from rfl,
    rejectAllPending_eq_map st.pending]
  simp

/-- `wss.on('error')` of the relay server (src/native-host/index.js lines
312-318): always log; exit the process with code 1 exactly when the
listening port is already bound (`EADDRINUSE`). -/
def relayServerOnError (code : String) : List ProcEffect :=
  [.logLine ("WebSocket server error: " ++ code)] ++
    (if code = "EADDRINUSE" then
      [.logLine "Port 9224 already in use. Exiting.", .exitProcess 1]
    else [])

/-- The bridge client's `ws.on('error')` handler
(src/mcp-server/build/index.js lines 1007-1013): `ECONNREFUSED` is
expected while the host is not running and is not even logged; nothing
exits. -/
def bridgeOnError (code : String) : List ProcEffect :=
  if code = "ECONNREFUSED" then []
  else [.logLine ("WebSocket error: " ++ code)]

/-- C7: a relay listening port already bound by another process is fatal
(the error handler exits the process), while a transient connection
failure on the bridge-client side only schedules a reconnect and never
terminates the process. -/
theorem c7_port_in_use_fatal :
    (ProcEffect.exitProcess 1 ∈ relayServerOnError "EADDRINUSE") ∧
    (∀ code, code ≠ "EADDRINUSE" → ∀ cd, ProcEffect.exitProcess cd ∉ relayServerOnError code) ∧
    (∀ st : BridgeSt, (onSocketClose st).2.2 = [.scheduleReconnect RECONNECT_INTERVAL] ∧
      ∀ cd, ProcEffect.exitProcess cd ∉ (onSocketClose st).2.2) ∧
    (∀ code cd, ProcEffect.exitProcess cd ∉ bridgeOnError code) := by
  refine ⟨by decide, ?_, fun st => ⟨rfl, ?_⟩, ?_⟩
  · intro code hcode cd hmem
    simp [relayServerOnError, hcode] at hmem
  · intro cd hmem
    simp [onSocketClose] at hmem
  · intro code cd hmem
    unfold bridgeOnError at hmem
    by_cases hcode : code = "ECONNREFUSED"
    · simp [hcode] at hmem
    · simp [hcode] at hmem

/-- C7 witness: the per-code behavior at a concrete transient failure. -/
theorem c7_port_in_use_fatal_witness :
    ProcEffect.exitProcess 1 ∈ relayServerOnError "EADDRINUSE" ∧
    ProcEffect.exitProcess 1 ∉ bridgeOnError "ECONNREFUSED" :=
  ⟨c7_port_in_use_fatal.1, c7_port_in_use_fatal.2.2.2 "ECONNREFUSED" 1⟩

/-! ## Claim C6: late command responses are no-ops -/

/-- A message from the native host, as dispatched on by
`handleNativeMessage` (src/mcp-server/build/index.js lines 1156-1184). -/
inductive NativeMsg where
  | cdpResponse (id : Nat) (isError : Bool)
  | statusMsg (connected : Bool)
  | other (tag : String)
deriving DecidableEq

/-- `handleNativeMessage`: a `cdp_response` settles and removes the
matching pending entry if one exists, and otherwise only logs; `status`
and unknown messages never touch the table. -/
def handleNativeMessage (msg : NativeMsg) (pending : List PendingReq) :
    List PendingReq × List Settlement :=
  match msg with
  | .cdpResponse id isError =>
    match pending.find? (fun p => p.id == id) with
    | some _ =>
      (pending.eraseP (fun q => q.id == id),
       [if isError then .rejected id "CDP command failed" else .resolved id])
    | none => (pending, [])
  | .statusMsg _ => (pending, [])
  | .other _ => (pending, [])

/-- C6: a command response for an id with no pending entry (already
settled and removed by timeout, rejection or a prior response) resolves
nothing, rejects nothing, and leaves the table unchanged. -/
theorem c6_late_response_noop (pending : List PendingReq) (id : Nat) (isError : Bool)
    (h : ∀ p ∈ pending, p.id ≠ id) :
    handleNativeMessage (.cdpResponse id isError) pending = (pending, []) := by
  have hf : pending.find? (fun p => p.id == id) = none := by
    rw [List.find?_eq_none]
    intro p hp
    simpa using h p hp
  unfold handleNativeMessage
  dsimp only
  rw [hf]

/-- C6 witness: a response for id 2 while only id 1 is pending. -/
theorem c6_late_response_noop_witness :
    (∀ p ∈ [PendingReq.mk 1 0], p.id ≠ 2) ∧
    handleNativeMessage (.cdpResponse 2 false) [PendingReq.mk 1 0] = ([PendingReq.mk 1 0], []) :=
  ⟨by decide, c6_late_response_noop [PendingReq.mk 1 0] 2 false (by decide)⟩

/-! ## The diagnostic engine (src/mcp-server/build/index.js 53-277, 527-581)

Geometry is integral (the handler rounds all bounds with `Math.round`).
Style values are strings; `parseFloat` / `parseInt` are modelled over ℚ /
ℤ with `none` for NaN.  The two `* 0.9` viewport comparisons are modelled
exactly over the integers as `9 * v ≤ 10 * w`. -/

inductive Severity where
  | high
  | medium
  | low
deriving DecidableEq

/-- A DiagnosticIssue. -/
structure Issue where
  type : String
  severity : Severity
  message : String
  suggestion : String
  pixels : Option Int
deriving DecidableEq

structure Bounds where
  left : Int
  top : Int
  right : Int
  bottom : Int
  width : Int
  height : Int
deriving DecidableEq

structure Viewport where
  clientWidth : Int
  clientHeight : Int
deriving DecidableEq

/-- The computed-style map (`styleMap : Map<string, string>`). -/
abbrev StyleMap := List (String × String)

/-- `styleMap.get(k)`. -/
def getStyle (m : StyleMap) (k : String) : Option String :=
  m.lookup k

/-- JavaScript truthiness of an optional string (`undefined` and `""` are
falsy). -/
def strTruthy : Option String → Bool
  | none => false
  | some s => !(s == "")

def listStartsWith : List Char → List Char → Bool
  | [], _ => true
  | _ :: _, [] => false
  | a :: as, b :: bs => a == b && listStartsWith as bs

def listContainsSeg (pat : List Char) : List Char → Bool
  | [] => pat.isEmpty
  | b :: bs => listStartsWith pat (b :: bs) || listContainsSeg pat bs

/-- `String.prototype.includes`. -/
def strIncludes (s sub : String) : Bool :=
  listContainsSeg sub.toList s.toList

def isDigitC (ch : Char) : Bool :=
  48 ≤ ch.toNat && ch.toNat ≤ 57

def digitVal (ch : Char) : Nat :=
  ch.toNat - 48

/-- Consume leading decimal digits, accumulating their value. -/
def parseIntDigits (acc : Nat) : List Char → Nat × List Char
  | [] => (acc, [])
  | ch :: rest =>
    if isDigitC ch then parseIntDigits (10 * acc + digitVal ch) rest
    else (acc, ch :: rest)

/-- Fraction digits after the decimal point: their value and their
count. -/
def parseFracDigits (acc cnt : Nat) : List Char → Nat × Nat
  | [] => (acc, cnt)
  | ch :: rest =>
    if isDigitC ch then parseFracDigits (10 * acc + digitVal ch) (cnt + 1) rest
    else (acc, cnt)

/-- An exact decimal: the value is `mant / 10 ^ exp`. -/
structure DecimalQ where
  mant : Int
  exp : Nat
deriving DecidableEq

/-- Model of `parseFloat` on the decimal literals of computed styles
(optional sign, digits, optional fraction), as an exact decimal; `none`
models NaN. -/
def jsParseFloat (s : String) : Option DecimalQ :=
  let res : Bool × List Char :=
    match s.toList with
    | ch :: rest => if ch = '-' then (true, rest) else (false, ch :: rest)
    | [] => (false, [])
  match res.2 with
  | [] => none
  | ch :: _ =>
    if isDigitC ch then
      let ipres := parseIntDigits 0 res.2
      let frac : Nat × Nat :=
        match ipres.2 with
        | '.' :: frest => parseFracDigits 0 0 frest
        | _ => (0, 0)
      let mant : Int := (ipres.1 * 10 ^ frac.2 + frac.1 : Nat)
      some ⟨if res.1 then -mant else mant, frac.2⟩
    else none

/-- Model of `parseInt(s, 10)`; `none` models NaN. -/
def jsParseInt (s : String) : Option Int :=
  let res : Bool × List Char :=
    match s.toList with
    | ch :: rest => if ch = '-' then (true, rest) else (false, ch :: rest)
    | [] => (false, [])
  match res.2 with
  | [] => none
  | ch :: _ =>
    if isDigitC ch then
      let v := (parseIntDigits 0 res.2).1
      some (if res.1 then -(v : Int) else (v : Int))
    else none

/-- `checkOffscreen` (lines 53-106): pushes right, bottom, left, top and
completely-offscreen issues, in that order, with a 2px tolerance. -/
def checkOffscreen (bounds : Bounds) (viewport : Viewport) : List Issue :=
  (if viewport.clientWidth + 2 < bounds.right then
    [⟨"offscreen-right", .high,
      "Element extends " ++ toString (bounds.right - viewport.clientWidth) ++
        "px beyond right edge of viewport (" ++ toString viewport.clientWidth ++ "px)",
      "Add max-width: 100%, use width: fit-content, or apply overflow: hidden to parent",
      some (bounds.right - viewport.clientWidth)⟩]
  else []) ++
  (if viewport.clientHeight + 2 < bounds.bottom then
    [⟨"offscreen-bottom", .medium,
      "Element extends " ++ toString (bounds.bottom - viewport.clientHeight) ++
        "px beyond bottom edge of viewport (" ++ toString viewport.clientHeight ++ "px)",
      "Add max-height: 100vh, enable scrolling with overflow: auto, or use position: fixed",
      some (bounds.bottom - viewport.clientHeight)⟩]
  else []) ++
  (if bounds.left < -2 then
    [⟨"offscreen-left", .high,
      "Element starts " ++ toString bounds.left.natAbs ++
        "px to the left of viewport (negative left position)",
      "Check left/margin-left values, use left: 0 or transform: translateX(0)",
      some (bounds.left.natAbs : Int)⟩]
  else []) ++
  (if bounds.top < -2 then
    [⟨"offscreen-top", .high,
      "Element starts " ++ toString bounds.top.natAbs ++
        "px above viewport (negative top position)",
      "Check top/margin-top values, use top: 0 or transform: translateY(0)",
      some (bounds.top.natAbs : Int)⟩]
  else []) ++
  (if bounds.right < 0 ∨ viewport.clientWidth < bounds.left ∨
      bounds.bottom < 0 ∨ viewport.clientHeight < bounds.top then
    [⟨"completely-offscreen", .high,
      "Element is completely outside the visible viewport",
      "Check position, transform, and margin values; element may be hidden unintentionally",
      none⟩]
  else [])

/-- `checkVisibility` (lines 107-175). -/
def checkVisibility (styleMap : StyleMap) : List Issue :=
  let display := getStyle styleMap "display"
  let visibility := getStyle styleMap "visibility"
  let opacity := getStyle styleMap "opacity"
  let clipPath := getStyle styleMap "clip-path"
  let width := getStyle styleMap "width"
  let height := getStyle styleMap "height"
  (if display = some "none" then
    [⟨"hidden-display", .high, "Element has display: none and is not rendered",
      "Change to display: block/flex/grid or remove display: none to make visible", none⟩]
  else []) ++
  (if visibility = some "hidden" then
    [⟨"hidden-visibility", .high,
      "Element has visibility: hidden (takes up space but invisible)",
      "Change to visibility: visible to make element visible", none⟩]
  else []) ++
  (if visibility = some "collapse" then
    [⟨"hidden-collapse", .high,
      "Element has visibility: collapse (hidden, may not take up space)",
      "Change to visibility: visible to make element visible", none⟩]
  else []) ++
  (match opacity with
   | none => []
   | some o =>
     match jsParseFloat o with
     | none => []
     | some v =>
       -- `parseFloat(opacity) === 0` and `< 0.1`, exactly over the decimal:
       -- m / 10^e = 0 iff m = 0, and m / 10^e < 1/10 iff 10 * m < 10^e.
       if v.mant = 0 then
         [⟨"hidden-opacity", .high, "Element has opacity: 0 (fully transparent)",
           "Change to opacity: 1 or remove opacity: 0 to make visible", none⟩]
       else if 10 * v.mant < (10 ^ v.exp : Int) then
         [⟨"low-opacity", .medium,
           "Element has very low opacity: " ++ o ++ " (nearly invisible)",
           "Increase opacity value for better visibility", none⟩]
       else []) ++
  (if clipPath = some "inset(100%)" ∨ clipPath = some "circle(0)" ∨
      clipPath = some "polygon(0 0)" then
    [⟨"hidden-clip-path", .medium,
      "Element is hidden via clip-path: " ++ (clipPath.getD ""),
      "Remove or modify clip-path to make element visible", none⟩]
  else []) ++
  (if width = some "0px" ∧ height = some "0px" then
    [⟨"zero-dimensions", .medium, "Element has zero width and height",
      "Set explicit width/height or ensure content can expand the element", none⟩]
  else [])

/-- `checkModalIssues` (lines 176-251). -/
def checkModalIssues (styleMap : StyleMap) (bounds : Bounds) (viewport : Viewport) :
    List Issue :=
  let position := getStyle styleMap "position"
  let zIndex := getStyle styleMap "z-index"
  let zIndexValue : Option Int :=
    if strTruthy zIndex then jsParseInt (zIndex.getD "") else none
  let part1 :=
    if position = some "fixed" ∨ position = some "absolute" ∨ position = some "relative" then
      if zIndex = some "auto" ∨ zIndexValue = none then
        [⟨"modal-no-zindex", .medium,
          "Positioned element (" ++ (position.getD "undefined") ++ ") has no explicit z-index",
          "Add z-index value (e.g., z-index: 1000) to ensure modal appears above other content",
          none⟩]
      else
        match zIndexValue with
        | some z =>
          if z < 100 then
            [⟨"modal-low-zindex", .low,
              "Modal has relatively low z-index: " ++ toString z,
              "Consider using higher z-index (1000+) for modals to ensure they appear above other positioned elements",
              none⟩]
          else []
        | none => []
    else []
  let part2 :=
    if position = some "fixed" then
      let left := getStyle styleMap "left"
      let top := getStyle styleMap "top"
      let transform := getStyle styleMap "transform"
      let isCH := (left == some "50%") ||
        (strTruthy transform && strIncludes (transform.getD "") "translateX(-50%)")
      let isCV := (top == some "50%") ||
        (strTruthy transform && strIncludes (transform.getD "") "translateY(-50%)")
      let right := getStyle styleMap "right"
      if !isCH && !isCV then
        if !(left == some "0px") && !(left == some "0") &&
            !(right == some "0px") && !(right == some "0") then
          [⟨"modal-not-centered", .low, "Fixed element may not be properly centered",
            "Use left: 50%; top: 50%; transform: translate(-50%, -50%) for centering", none⟩]
        else []
      else []
    else []
  let part3 :=
    let isolation := getStyle styleMap "isolation"
    let mixBlendMode := getStyle styleMap "mix-blend-mode"
    let filterStyle := getStyle styleMap "filter"
    let willChange := getStyle styleMap "will-change"
    if (isolation == some "isolate") ||
        (strTruthy mixBlendMode && !(mixBlendMode == some "normal")) ||
        (strTruthy filterStyle && !(filterStyle == some "none")) ||
        (strTruthy willChange && !(willChange == some "auto")) then
      [⟨"stacking-context", .low,
        "Element creates a new stacking context which may affect z-index behavior",
        "Be aware that z-index is relative to the stacking context, not the document", none⟩]
    else []
  let part4 :=
    let backgroundColor := getStyle styleMap "background-color"
    if strTruthy backgroundColor && (position == some "fixed") then
      if 9 * viewport.clientWidth ≤ 10 * bounds.width ∧
          9 * viewport.clientHeight ≤ 10 * bounds.height then
        if !(strIncludes (backgroundColor.getD "") "rgba") &&
            !(strIncludes (backgroundColor.getD "") "hsla") &&
            !(backgroundColor == some "transparent") then
          [⟨"backdrop-opaque", .low, "Full-screen overlay has opaque background",
            "Consider using semi-transparent background (e.g., rgba(0,0,0,0.5)) for backdrop",
            none⟩]
        else []
      else []
    else []
  part1 ++ part2 ++ part3 ++ part4

/-- `checkOverflow` (lines 252-277). -/
def checkOverflow (styleMap : StyleMap) : List Issue :=
  let overflow := getStyle styleMap "overflow"
  let overflowX := getStyle styleMap "overflow-x"
  let overflowY := getStyle styleMap "overflow-y"
  (if overflow = some "hidden" ∨ overflowX = some "hidden" ∨ overflowY = some "hidden" then
    [⟨"overflow-hidden", .low,
      "Element has overflow: hidden which may clip child content",
      "If content is being cut off, change to overflow: auto or overflow: visible", none⟩]
  else []) ++
  (if overflow = some "scroll" ∨ overflow = some "auto" ∨
      overflowX = some "scroll" ∨ overflowX = some "auto" ∨
      overflowY = some "scroll" ∨ overflowY = some "auto" then
    [⟨"scroll-container", .low,
      "Element is a scroll container (overflow: " ++
        (if strTruthy overflow then overflow.getD ""
         else "x: " ++ (overflowX.getD "undefined") ++ ", y: " ++ (overflowY.getD "undefined"))
        ++ ")",
      "Ensure scrollable content is accessible and scroll indicators are visible", none⟩]
  else [])

/-- `severityOrder = { high: 0, medium: 1, low: 2 }`. -/
def severityOrder : Severity → Nat
  | .high => 0
  | .medium => 1
  | .low => 2

/-- Stable insertion: the element goes after every already-placed element
that does not compare greater, modelling the stable
`allIssues.sort((a, b) => severityOrder[a.severity] - severityOrder[b.severity])`. -/
def insertIssue (x : Issue) : List Issue → List Issue
  | [] => [x]
  | y :: ys =>
    if severityOrder y.severity ≤ severityOrder x.severity then y :: insertIssue x ys
    else x :: y :: ys

def sortIssues (l : List Issue) : List Issue :=
  l.foldl (fun acc x => insertIssue x acc) []

/-- The synthetic entry substituted when no rule fired. -/
def noIssuesEntry : Issue :=
  ⟨"none", .low, "No layout issues detected",
   "Element appears to be positioned correctly within viewport", none⟩

structure Summary where
  totalIssues : Nat
  highSeverity : Nat
  mediumSeverity : Nat
  lowSeverity : Nat
deriving DecidableEq

/-- The `diagnose_layout` result fields the claims are about.  The
`confidence` floats 0.95 / 0.85 are modelled in hundredths. -/
structure DiagResult where
  issues : List Issue
  confidence : Nat
  summary : Summary
deriving DecidableEq

/-- All issues of the four rule checks, in the order the handler runs
them: visibility, offscreen, modal, overflow (steps 7 of the handler). -/
def allIssuesOf (styleMap : StyleMap) (bounds : Bounds) (viewport : Viewport) : List Issue :=
  checkVisibility styleMap ++ checkOffscreen bounds viewport ++
    checkModalIssues styleMap bounds viewport ++ checkOverflow styleMap

/-- Steps 8-9 of the `diagnose_layout` handler: sort by severity, build
`issues` (with the synthetic entry when empty), `confidence` and the
severity `summary`. -/
def diagnoseResult (styleMap : StyleMap) (bounds : Bounds) (viewport : Viewport) : DiagResult :=
  let allIssues := sortIssues (allIssuesOf styleMap bounds viewport)
  { issues := if 0 < allIssues.length then allIssues else [noIssuesEntry]
    confidence := if 0 < allIssues.length then 95 else 85
    summary :=
      { totalIssues := allIssues.length
        highSeverity := (allIssues.filter (fun i => i.severity == Severity.high)).length
        mediumSeverity := (allIssues.filter (fun i => i.severity == Severity.medium)).length
        lowSeverity := (allIssues.filter (fun i => i.severity == Severity.low)).length } }

theorem insertIssue_perm (x : Issue) (l : List Issue) : (insertIssue x l).Perm (x :: l) := by
  induction l with
  | nil => exact List.Perm.refl _
  | cons y ys ih =>
    unfold insertIssue
    by_cases hc : severityOrder y.severity ≤ severityOrder x.severity
    · rw [if_pos hc]
      exact (ih.cons y).trans (List.Perm.swap x y ys)
    · rw [if_neg hc]

theorem sortIssues_aux_perm (l : List Issue) : ∀ (acc : List Issue),
    (l.foldl (fun acc x => insertIssue x acc) acc).Perm (acc ++ l) := by
  induction l with
  | nil => intro acc; simp
  | cons x xs ih =>
    intro acc
    show (xs.foldl (fun acc x => insertIssue x acc) (insertIssue x acc)).Perm _
    refine (ih (insertIssue x acc)).trans ?_
    refine (List.Perm.append_right xs (insertIssue_perm x acc)).trans ?_
    show ((x :: acc) ++ xs).Perm (acc ++ (x :: xs))
    exact List.perm_middle.symm

theorem sortIssues_perm (l : List Issue) : (sortIssues l).Perm l := by
  have h := sortIssues_aux_perm l []
  simpa [sortIssues] using h

theorem diagnoseResult_issues_def (sm : StyleMap) (b : Bounds) (v : Viewport) :
    (diagnoseResult sm b v).issues
      = (if 0 < (sortIssues (allIssuesOf sm b v)).length then
          sortIssues (allIssuesOf sm b v) else [noIssuesEntry]) := rfl

theorem diagnoseResult_conf_def (sm : StyleMap) (b : Bounds) (v : Viewport) :
    (diagnoseResult sm b v).confidence
      = (if 0 < (sortIssues (allIssuesOf sm b v)).length then (95 : Nat) else 85) := rfl

theorem diagnoseResult_total_def (sm : StyleMap) (b : Bounds) (v : Viewport) :
    (diagnoseResult sm b v).summary.totalIssues
      = (sortIssues (allIssuesOf sm b v)).length := rfl

theorem diagnoseResult_high_def (sm : StyleMap) (b : Bounds) (v : Viewport) :
    (diagnoseResult sm b v).summary.highSeverity
      = ((sortIssues (allIssuesOf sm b v)).filter
          (fun i => i.severity == Severity.high)).length := rfl

theorem diagnoseResult_medium_def (sm : StyleMap) (b : Bounds) (v : Viewport) :
    (diagnoseResult sm b v).summary.mediumSeverity
      = ((sortIssues (allIssuesOf sm b v)).filter
          (fun i => i.severity == Severity.medium)).length := rfl

theorem diagnoseResult_low_def (sm : StyleMap) (b : Bounds) (v : Viewport) :
    (diagnoseResult sm b v).summary.lowSeverity
      = ((sortIssues (allIssuesOf sm b v)).filter
          (fun i => i.severity == Severity.low)).length := rfl

/-! ## Claims C8, C9, C10: the diagnose result -/

/-- The spec's benign snapshot style: display block, visibility visible,
opacity 1, no positioning. -/
def okStyle : StyleMap := [("display", "block"), ("visibility", "visible"), ("opacity", "1")]

/-- Bounds fully inside the standard viewport. -/
def okBounds : Bounds := ⟨10, 10, 100, 100, 90, 90⟩

def stdViewport : Viewport := ⟨800, 600⟩

/-- A style on which the `display: none` rule fires. -/
def badStyle : StyleMap := [("display", "none")]

/-- C8: when no diagnostic rule fires, the result's issues list is exactly
the one synthetic "no issues" entry (in particular non-empty) and its
confidence (0.85, modelled as 85) is strictly below the confidence
reported whenever at least one rule fires (0.95, modelled as 95). -/
theorem c8_synthetic_entry (styleMap : StyleMap) (bounds : Bounds) (viewport : Viewport)
    (h : allIssuesOf styleMap bounds viewport = []) :
    (diagnoseResult styleMap bounds viewport).issues = [noIssuesEntry] ∧
    (diagnoseResult styleMap bounds viewport).issues ≠ [] ∧
    (diagnoseResult styleMap bounds viewport).confidence = 85 ∧
    ∀ (sm2 : StyleMap) (b2 : Bounds) (v2 : Viewport), allIssuesOf sm2 b2 v2 ≠ [] →
      (diagnoseResult styleMap bounds viewport).confidence
        < (diagnoseResult sm2 b2 v2).confidence := by
  have hs : sortIssues (allIssuesOf styleMap bounds viewport) = [] := by
    rw [h]; rfl
  have hIss : (diagnoseResult styleMap bounds viewport).issues = [noIssuesEntry] := by
    rw [diagnoseResult_issues_def, hs]
    rfl
  have hConf : (diagnoseResult styleMap bounds viewport).confidence = 85 := by
    rw [diagnoseResult_conf_def, hs]
    rfl
  refine ⟨hIss, by rw [hIss]; simp, hConf, ?_⟩
  intro sm2 b2 v2 h2
  have hlen2 : 0 < (sortIssues (allIssuesOf sm2 b2 v2)).length := by
    have hperm := (sortIssues_perm (allIssuesOf sm2 b2 v2)).length_eq
    have hne : (allIssuesOf sm2 b2 v2).length ≠ 0 := by
      intro hz
      exact h2 (List.length_eq_zero.mp hz)
    omega
  have hConf2 : (diagnoseResult sm2 b2 v2).confidence = 95 := by
    rw [diagnoseResult_conf_def, if_pos hlen2]
  rw [hConf, hConf2]
  omega

/-- C8 witness: the benign snapshot yields the synthetic entry with
confidence 0.85, strictly below the 0.95 of a snapshot with
`display: none`. -/
theorem c8_synthetic_entry_witness :
    allIssuesOf okStyle okBounds stdViewport = [] ∧
    (diagnoseResult okStyle okBounds stdViewport).issues = [noIssuesEntry] ∧
    (diagnoseResult okStyle okBounds stdViewport).confidence = 85 ∧
    allIssuesOf badStyle okBounds stdViewport ≠ [] ∧
    (diagnoseResult okStyle okBounds stdViewport).confidence
      < (diagnoseResult badStyle okBounds stdViewport).confidence := by
  have h : allIssuesOf okStyle okBounds stdViewport = [] := by decide
  have hbad : allIssuesOf badStyle okBounds stdViewport ≠ [] := by decide
  have main := c8_synthetic_entry okStyle okBounds stdViewport h
  exact ⟨h, main.1, main.2.2.1, hbad, main.2.2.2 badStyle okBounds stdViewport hbad⟩

/-- C9: whenever `bounds.left` is strictly below the -2px tolerance, the
result contains an `offscreen-left` issue of high severity whose `pixels`
field is `|left|`, which is nonzero. -/
theorem c9_offscreen_left (styleMap : StyleMap) (bounds : Bounds) (viewport : Viewport)
    (h : bounds.left < -2) :
    ∃ iss ∈ (diagnoseResult styleMap bounds viewport).issues,
      iss.type = "offscreen-left" ∧ iss.severity = Severity.high ∧
      iss.pixels = some (bounds.left.natAbs : Int) ∧ iss.pixels ≠ some 0 := by
  have hmem0 : (⟨"offscreen-left", .high,
      "Element starts " ++ toString bounds.left.natAbs ++
        "px to the left of viewport (negative left position)",
      "Check left/margin-left values, use left: 0 or transform: translateX(0)",
      some (bounds.left.natAbs : Int)⟩ : Issue) ∈ checkOffscreen bounds viewport := by
    unfold checkOffscreen
    rw [if_pos h]
    simp [List.mem_append]
  have hmemAll : (⟨"offscreen-left", .high,
      "Element starts " ++ toString bounds.left.natAbs ++
        "px to the left of viewport (negative left position)",
      "Check left/margin-left values, use left: 0 or transform: translateX(0)",
      some (bounds.left.natAbs : Int)⟩ : Issue) ∈ allIssuesOf styleMap bounds viewport := by
    unfold allIssuesOf
    simp only [List.mem_append]
    exact Or.inl (Or.inl (Or.inr hmem0))
  have hmemS := ((sortIssues_perm (allIssuesOf styleMap bounds viewport)).mem_iff).mpr hmemAll
  have hlen : 0 < (sortIssues (allIssuesOf styleMap bounds viewport)).length :=
    List.length_pos.mpr (List.ne_nil_of_mem hmemS)
  have hIss : (diagnoseResult styleMap bounds viewport).issues
      = sortIssues (allIssuesOf styleMap bounds viewport) := by
    rw [diagnoseResult_issues_def, if_pos hlen]
  refine ⟨_, by rw [hIss]; exact hmemS, rfl, rfl, rfl, ?_⟩
  intro hq
  have hz : (bounds.left.natAbs : Int) = 0 := Option.some.inj hq
  omega

def c9Bounds : Bounds := ⟨-9999, 10, -9900, 100, 99, 90⟩

/-- C9 witness: the spec's `left = -9999` snapshot. -/
theorem c9_offscreen_left_witness :
    c9Bounds.left < -2 ∧
    (∃ iss ∈ (diagnoseResult okStyle c9Bounds stdViewport).issues,
      iss.type = "offscreen-left" ∧ iss.severity = Severity.high ∧
      iss.pixels = some (c9Bounds.left.natAbs : Int) ∧ iss.pixels ≠ some 0) :=
  ⟨by decide, c9_offscreen_left okStyle c9Bounds stdViewport (by decide)⟩

theorem issue_partition (l : List Issue) :
    l.length = (l.filter (fun i => i.severity == Severity.high)).length +
      (l.filter (fun i => i.severity == Severity.medium)).length +
      (l.filter (fun i => i.severity == Severity.low)).length := by
  induction l with
  | nil => rfl
  | cons x xs ih =>
    cases hx : x.severity <;> simp [List.filter_cons, hx] <;> omega

/-- C10: `summary.totalIssues` equals the sum of the three severity
counts, all taken over the rule-check issues only; when no rule fires the
total is 0 while the issues array carries the one synthetic entry. -/
theorem c10_summary_partition (styleMap : StyleMap) (bounds : Bounds) (viewport : Viewport) :
    ((diagnoseResult styleMap bounds viewport).summary.totalIssues
      = (diagnoseResult styleMap bounds viewport).summary.highSeverity +
        (diagnoseResult styleMap bounds viewport).summary.mediumSeverity +
        (diagnoseResult styleMap bounds viewport).summary.lowSeverity) ∧
    (allIssuesOf styleMap bounds viewport = [] →
      (diagnoseResult styleMap bounds viewport).summary.totalIssues = 0 ∧
      (diagnoseResult styleMap bounds viewport).issues.length = 1) := by
  constructor
  · rw [diagnoseResult_total_def, diagnoseResult_high_def, diagnoseResult_medium_def,
      diagnoseResult_low_def]
    exact issue_partition (sortIssues (allIssuesOf styleMap bounds viewport))
  · intro h
    have hs : sortIssues (allIssuesOf styleMap bounds viewport) = [] := by
      rw [h]; rfl
    constructor
    · rw [diagnoseResult_total_def, hs]
      rfl
    · rw [diagnoseResult_issues_def, hs]
      rfl

/-- C10 witness: the partition at a firing snapshot and the zero-total
singleton-issues case at the benign snapshot. -/
theorem c10_summary_partition_witness :
    ((diagnoseResult badStyle okBounds stdViewport).summary.totalIssues
      = (diagnoseResult badStyle okBounds stdViewport).summary.highSeverity +
        (diagnoseResult badStyle okBounds stdViewport).summary.mediumSeverity +
        (diagnoseResult badStyle okBounds stdViewport).summary.lowSeverity) ∧
    allIssuesOf okStyle okBounds stdViewport = [] ∧
    (diagnoseResult okStyle okBounds stdViewport).summary.totalIssues = 0 ∧
    (diagnoseResult okStyle okBounds stdViewport).issues.length = 1 := by
  have h := (c10_summary_partition okStyle okBounds stdViewport).2 (by decide)
  exact ⟨(c10_summary_partition badStyle okBounds stdViewport).1, by decide, h.1, h.2⟩

end Gravity
